import Mathlib

/-!
Verification development for the streaming JSON-Schema validator in
`src/tao/json/contrib/schema.hpp` (the `IF_` macro in that file is plain `if`).

The embedding covers the keyword fragment exercised by the properties under
study: `type`, `multipleOf`, `maximum`/`exclusiveMaximum`,
`minimum`/`exclusiveMinimum`, `format` (`email`, `hostname`), `required`,
array-valued `dependencies`, and the composition keywords
`allOf`/`anyOf`/`oneOf`/`not`.  Machine numbers are modelled as `Int`/`Nat`
and IEEE doubles as exact rationals (`fmod` is exact in IEEE-754, so the
`multipleOf` remainder logic carries over unchanged); strings are modelled at
the character level, which agrees with the source's byte level on the ASCII
alphabets of the embedded format grammars.
-/

set_option linter.unusedVariables false

namespace TaoSchema

/-- The seven primitive-type bits of `internal::schema_flags`
(`NULL_`, `BOOLEAN`, `INTEGER`, `NUMBER`, `STRING`, `ARRAY`, `OBJECT`). -/
structure TypeFlags where
  tNull : Bool := false
  tBool : Bool := false
  tInt : Bool := false
  tNum : Bool := false
  tStr : Bool := false
  tArr : Bool := false
  tObj : Bool := false
deriving Repr, DecidableEq

/-- `(m_flags & t) != 0` for two sets of primitive-type bits. -/
def TypeFlags.overlaps (a b : TypeFlags) : Bool :=
  (a.tNull && b.tNull) || (a.tBool && b.tBool) || (a.tInt && b.tInt) ||
    (a.tNum && b.tNum) || (a.tStr && b.tStr) || (a.tArr && b.tArr) ||
    (a.tObj && b.tObj)

/-- Event-type bit set `NULL_`. -/
def nullFlag : TypeFlags := { tNull := true }

/-- Event-type bit set `BOOLEAN`. -/
def boolFlag : TypeFlags := { tBool := true }

/-- Event-type bit set `INTEGER | NUMBER` used by `number(int64)`/`number(uint64)`. -/
def intNumFlag : TypeFlags := { tInt := true, tNum := true }

/-- Event-type bit set `NUMBER` used by `number(double)`. -/
def numFlag : TypeFlags := { tNum := true }

/-- Event-type bit set `STRING`. -/
def strFlag : TypeFlags := { tStr := true }

/-- Event-type bit set `ARRAY`. -/
def arrFlag : TypeFlags := { tArr := true }

/-- Event-type bit set `OBJECT`. -/
def objFlag : TypeFlags := { tObj := true }

/-- The representation of a compiled `multipleOf` divisor: the source keeps
only `HAS_MULTIPLE_OF_UNSIGNED` (stored in `m_multiple_of.u`) and
`HAS_MULTIPLE_OF_DOUBLE` (stored in `m_multiple_of.d`). -/
inductive MultOf where
  | uns (u : Nat)
  | dbl (d : Rat)
deriving Repr, DecidableEq

/-- The representation of a compiled `maximum`/`minimum` bound: flags
`HAS_*_SIGNED` / `HAS_*_UNSIGNED` / `HAS_*_DOUBLE` over the `schema_limit`
union. -/
inductive Limit where
  | sgn (i : Int)
  | uns (u : Nat)
  | dbl (d : Rat)
deriving Repr, DecidableEq

/-- The numeric representation of a schema value (`type::SIGNED`,
`type::UNSIGNED`, `type::DOUBLE`). -/
inductive NumKind where
  | sgnK
  | unsK
  | dblK
deriving Repr, DecidableEq

/-- Representation tag of a compiled `multipleOf` divisor. -/
def MultOf.kind : MultOf → NumKind
  | .uns _ => .unsK
  | .dbl _ => .dblK

/-- Representation tag of a compiled bound. -/
def Limit.kind : Limit → NumKind
  | .sgn _ => .sgnK
  | .uns _ => .unsK
  | .dbl _ => .dblK

/-- `internal::schema_format` restricted to the formats of the fragment. -/
inductive SFormat where
  | fnone
  | email
  | hostname
deriving Repr, DecidableEq

/-- The eleven validation events of the `Events` consumer interface
(`binary` is omitted: the source accepts it without any constraint). -/
inductive Event where
  | enull
  | eboolean (b : Bool)
  | enumI (v : Int)
  | enumU (v : Nat)
  | enumD (v : Rat)
  | estr (s : String)
  | ebeginArray
  | eelement
  | eendArray
  | ebeginObject
  | ekey (k : String)
  | emember
  | eendObject
deriving Repr, DecidableEq

/-! ## The `email` / `hostname` grammars (`internal::local_part`,
`internal::hostname`, `internal::email`)

PEGTL parses these grammars greedily and without backtracking.  A plain rule
failure is a local failure and `pegtl::parse` returns `false`; a failure of a
`must`-guarded sub-rule instead throws `tao::pegtl::parse_error`, and since
nothing on the `validate_string` path catches it, the exception escapes
`basic_schema::validate` uncaught.  The model keeps the two failure modes
apart: `PegResult`/`ParseOutcome` carry an explicit `raise` alternative. -/

/-- ASCII `pegtl::alnum`. -/
def isAlnumCh (c : Char) : Bool :=
  (0x41 ≤ c.toNat && c.toNat ≤ 0x5a) || (0x61 ≤ c.toNat && c.toNat ≤ 0x7a) ||
    (0x30 ≤ c.toNat && c.toNat ≤ 0x39)

/-- The extra characters allowed in `local_part_label` besides `alnum`:
`! # $ % & ' * + - / = ? ^ _ \x60 \x7b | \x7d ~`. -/
def isLocalExtra (c : Char) : Bool :=
  c.toNat = 0x21 || c.toNat = 0x23 || c.toNat = 0x24 || c.toNat = 0x25 ||
    c.toNat = 0x26 || c.toNat = 0x27 || c.toNat = 0x2a || c.toNat = 0x2b ||
    c.toNat = 0x2d || c.toNat = 0x2f || c.toNat = 0x3d || c.toNat = 0x3f ||
    c.toNat = 0x5e || c.toNat = 0x5f || c.toNat = 0x60 || c.toNat = 0x7b ||
    c.toNat = 0x7c || c.toNat = 0x7d || c.toNat = 0x7e

/-- A character of `local_part_label`. -/
def isLocalCh (c : Char) : Bool :=
  isAlnumCh c || isLocalExtra c

/-- A character of the repeated tail of `hostname_label`
(`ranges<a-z, A-Z, 0-9, ->`). -/
def isHostCh (c : Char) : Bool :=
  isAlnumCh c || c.toNat = 0x2d

/-- Greedily drop characters satisfying `f` (PEG `star`). -/
def dropAll (f : Char → Bool) : List Char → List Char
  | [] => []
  | c :: cs => if f c then dropAll f cs else c :: cs

/-- Greedily drop at most `k` characters satisfying `f` (PEG `rep_max`). -/
def dropUpTo (f : Char → Bool) : Nat → List Char → List Char
  | 0, cs => cs
  | _ + 1, [] => []
  | k + 1, c :: cs => if f c then dropUpTo f k cs else c :: cs

/-- `local_part_label`: `plus< alnum | one<specials> >`; returns the rest of
the input on success. -/
def localLabel : List Char → Option (List Char)
  | [] => none
  | c :: cs => if isLocalCh c then some (dropAll isLocalCh cs) else none

/-- `hostname_label`: `seq< alnum, rep_max<62, ranges<...>> >`. -/
def hostLabel : List Char → Option (List Char)
  | [] => none
  | c :: cs => if isAlnumCh c then some (dropUpTo isHostCh 62 cs) else none

/-- Result of running a PEG rule on a character list: a matched prefix with
the remaining input, a local (backtrackable) failure, or a raised
`tao::pegtl::parse_error` from an inner `must` rule. -/
inductive PegResult where
  | ok (rest : List Char)
  | fail
  | raise
deriving Repr, DecidableEq

/-- The `star< one<.>, must<Label> >` tail of `pegtl::list_must`: while the
next character is a dot, consume it and demand a label — a label failure
after a consumed dot raises `parse_error` instead of ending the repetition.
Fueled by the input length (each iteration consumes at least two
characters). -/
def listMustTail (labelFn : List Char → Option (List Char)) :
    Nat → List Char → PegResult
  | 0, cs => .ok cs
  | fuel + 1, cs =>
    match cs with
    | [] => .ok []
    | c :: rest =>
      if c.toNat = 0x2e then
        match labelFn rest with
        | none => .raise
        | some rest2 => listMustTail labelFn fuel rest2
      else .ok (c :: rest)

/-- `pegtl::list_must< Label, one<.> >`: a first label (its failure is a
plain local failure), then the must-guarded dot-label repetition. -/
def listMust (labelFn : List Char → Option (List Char)) (fuel : Nat)
    (cs : List Char) : PegResult :=
  match labelFn cs with
  | none => .fail
  | some rest => listMustTail labelFn fuel rest

/-- `internal::local_part` applied to a whole character list. -/
def parseLocalPart (cs : List Char) : PegResult :=
  listMust localLabel (cs.length + 1) cs

/-- `internal::hostname` applied to a whole character list. -/
def parseHostnamePart (cs : List Char) : PegResult :=
  listMust hostLabel (cs.length + 1) cs

/-- Outcome of `internal::parse< Rule >` = `pegtl::parse< seq<Rule, eof> >`:
either the boolean the call returns, or an escaping
`tao::pegtl::parse_error` (no return value at all). -/
inductive ParseOutcome where
  | ret (b : Bool)
  | raise
deriving Repr, DecidableEq

/-- The boolean returned when the parse returns; on a raising input the
source has no boolean, and the model artifact is `false` (callers must guard
with `ParseOutcome.raised`). -/
def ParseOutcome.returned : ParseOutcome → Bool
  | .ret b => b
  | .raise => false

/-- Whether the parse raises an escaping `parse_error`. -/
def ParseOutcome.raised : ParseOutcome → Bool
  | .ret _ => false
  | .raise => true

/-- `internal::parse< internal::email >`: `local_part`, `@`, `hostname`,
end of input; a `must` failure in either `list_must` escapes as `raise`. -/
def parseEmail (s : String) : ParseOutcome :=
  match parseLocalPart s.data with
  | .fail => .ret false
  | .raise => .raise
  | .ok rest =>
    match rest with
    | [] => .ret false
    | c :: rest2 =>
      if c.toNat = 0x40 then
        match parseHostnamePart rest2 with
        | .fail => .ret false
        | .raise => .raise
        | .ok rest3 => .ret rest3.isEmpty
      else .ret false

/-- `internal::parse< internal::hostname >` on a whole string. -/
def parseHostname (s : String) : ParseOutcome :=
  match parseHostnamePart s.data with
  | .fail => .ret false
  | .raise => .raise
  | .ok rest => .ret rest.isEmpty

/-! ## Numeric checks (`is_multiple_of`, `validate_multiple_of`,
`validate_number`) -/

/-- Exact multiplication of rationals (kernel-computable). -/
def ratMul (a b : Rat) : Rat := mkRat (a.num * b.num) (a.den * b.den)

/-- Exact subtraction of rationals (kernel-computable). -/
def ratSub (a b : Rat) : Rat :=
  mkRat (a.num * b.den - b.num * a.den) (a.den * b.den)

/-- Exact division of rationals (kernel-computable). -/
def ratDiv (a b : Rat) : Rat :=
  if b.num < 0 then mkRat (-(a.num * (b.den : Int))) (a.den * (-b.num).toNat)
  else mkRat (a.num * (b.den : Int)) (a.den * b.num.toNat)

/-- Strict order on rationals, as a boolean. -/
def ratLt (a b : Rat) : Bool := Rat.blt a b

/-- Non-strict order on rationals, as a boolean. -/
def ratLe (a b : Rat) : Bool := !Rat.blt b a

/-- `std::fabs` on exact rationals. -/
def ratAbs (q : Rat) : Rat := if Rat.blt q 0 then mkRat (-q.num) q.den else q

/-- The rational value of a signed (`int64_t`) operand promoted to double. -/
def intToRat (i : Int) : Rat := mkRat i 1

/-- The rational value of an unsigned (`uint64_t`) operand promoted to
double. -/
def natToRat (n : Nat) : Rat := mkRat n 1

/-- The rational zero. -/
def ratZero : Rat := mkRat 0 1

/-- `std::numeric_limits<double>::epsilon()` = 2^(-52). -/
def machineEps : Rat := mkRat 1 4503599627370496

/-- Truncation toward zero, the rounding used by `std::fmod`. -/
def ratTrunc (q : Rat) : Int := q.num.tdiv q.den

/-- `std::fmod( v, d )` on exact rationals:
`v - trunc( v / d ) * d` (`fmod` is exact in IEEE-754). -/
def fmodQ (v d : Rat) : Rat :=
  ratSub v (ratMul (intToRat (ratTrunc (ratDiv v d))) d)

/-- `schema_consumer::is_multiple_of( v, d )`, lines 990-1000 of the source:
`r = fmod( v, d )`; accept if `|r| < eps` or `|r - d| < eps` for the fixed
absolute `eps = std::numeric_limits<double>::epsilon()`. -/
def is_multiple_of (v d : Rat) : Bool :=
  let r := fmodQ v d
  if ratLt (ratAbs r) machineEps then true
  else if ratLt (ratAbs (ratSub r d)) machineEps then true
  else false

/-- `validate_multiple_of( int64_t )`; `true` means the match flag survives. -/
def checkMultipleOfI (mo : Option MultOf) (v : Int) : Bool :=
  match mo with
  | none => true
  | some (.uns u) =>
    if v < 0 then ((-v) % (u : Int)) == 0 else (v % (u : Int)) == 0
  | some (.dbl d) => is_multiple_of (intToRat v) d

/-- `validate_multiple_of( uint64_t )`. -/
def checkMultipleOfU (mo : Option MultOf) (v : Nat) : Bool :=
  match mo with
  | none => true
  | some (.uns u) => (v % u) == 0
  | some (.dbl d) => is_multiple_of (natToRat v) d

/-- `validate_multiple_of( double )`. -/
def checkMultipleOfD (mo : Option MultOf) (v : Rat) : Bool :=
  match mo with
  | none => true
  | some (.uns u) => is_multiple_of v (natToRat u)
  | some (.dbl d) => is_multiple_of v d

/-- The `maximum` switch of `validate_number( int64_t )`. -/
def checkMaximumI (mx : Option Limit) (ex : Bool) (v : Int) : Bool :=
  match mx, ex with
  | none, _ => true
  | some (.sgn i), false => !(v > i)
  | some (.sgn i), true => !(v ≥ i)
  | some (.uns u), false => !(v ≥ 0 && v.toNat > u)
  | some (.uns u), true => !(v ≥ 0 && v.toNat ≥ u)
  | some (.dbl d), false => !(ratLt d (intToRat v))
  | some (.dbl d), true => !(ratLe d (intToRat v))

/-- The `minimum` switch of `validate_number( int64_t )`. -/
def checkMinimumI (mn : Option Limit) (ex : Bool) (v : Int) : Bool :=
  match mn, ex with
  | none, _ => true
  | some (.sgn i), false => !(v < i)
  | some (.sgn i), true => !(v ≤ i)
  | some (.uns u), false => !(v < 0 || v.toNat < u)
  | some (.uns u), true => !(v < 0 || v.toNat ≤ u)
  | some (.dbl d), false => !(ratLt (intToRat v) d)
  | some (.dbl d), true => !(ratLe (intToRat v) d)

/-- The `maximum` switch of `validate_number( uint64_t )`. -/
def checkMaximumU (mx : Option Limit) (ex : Bool) (v : Nat) : Bool :=
  match mx, ex with
  | none, _ => true
  | some (.sgn i), false => !(i < 0 || v > i.toNat)
  | some (.sgn i), true => !(i < 0 || v ≥ i.toNat)
  | some (.uns u), false => !(v > u)
  | some (.uns u), true => !(v ≥ u)
  | some (.dbl d), false => !(ratLt d (natToRat v))
  | some (.dbl d), true => !(ratLe d (natToRat v))

/-- The `minimum` switch of `validate_number( uint64_t )`. -/
def checkMinimumU (mn : Option Limit) (ex : Bool) (v : Nat) : Bool :=
  match mn, ex with
  | none, _ => true
  | some (.sgn i), false => !(i ≥ 0 && v < i.toNat)
  | some (.sgn i), true => !(i ≥ 0 && v ≤ i.toNat)
  | some (.uns u), false => !(v < u)
  | some (.uns u), true => !(v ≤ u)
  | some (.dbl d), false => !(ratLt (natToRat v) d)
  | some (.dbl d), true => !(ratLe (natToRat v) d)

/-- The `maximum` switch of `validate_number( double )`. -/
def checkMaximumD (mx : Option Limit) (ex : Bool) (v : Rat) : Bool :=
  match mx, ex with
  | none, _ => true
  | some (.sgn i), false => !(ratLt (intToRat i) v)
  | some (.sgn i), true => !(ratLe (intToRat i) v)
  | some (.uns u), false => !(ratLt (natToRat u) v)
  | some (.uns u), true => !(ratLe (natToRat u) v)
  | some (.dbl d), false => !(ratLt d v)
  | some (.dbl d), true => !(ratLe d v)

/-- The `minimum` switch of `validate_number( double )`. -/
def checkMinimumD (mn : Option Limit) (ex : Bool) (v : Rat) : Bool :=
  match mn, ex with
  | none, _ => true
  | some (.sgn i), false => !(ratLt v (intToRat i))
  | some (.sgn i), true => !(ratLe v (intToRat i))
  | some (.uns u), false => !(ratLt v (natToRat u))
  | some (.uns u), true => !(ratLe v (natToRat u))
  | some (.dbl d), false => !(ratLt v d)
  | some (.dbl d), true => !(ratLe v d)

/-! ## JSON values (`basic_value`) and the event stream of one value -/

mutual

/-- A JSON value as handled by `tao::json::basic_value`: numbers keep their
`SIGNED`/`UNSIGNED`/`DOUBLE` representation. -/
inductive JValue where
  | jnull
  | jbool (b : Bool)
  | jint (i : Int)
  | juint (u : Nat)
  | jdouble (d : Rat)
  | jstr (s : String)
  | jarr (xs : JValues)
  | jobj (fs : JFields)

/-- A list of JSON values. -/
inductive JValues where
  | nil
  | cons (v : JValue) (l : JValues)

/-- The fields of a JSON object. -/
inductive JFields where
  | nil
  | cons (k : String) (v : JValue) (l : JFields)

end

/-- `basic_value::find`: look up a key in an object's fields. -/
def findField : JFields → String → Option JValue
  | .nil, _ => none
  | .cons k v l, key => if k = key then some v else findField l key

mutual

/-- Modelled from the spec: `events::from_value` is not under `src/`; §6 fixes
its event discipline as a depth-first document-order traversal emitting
`begin_array (value-events element)* end_array` and
`begin_object (key value-events member)* end_object`. -/
def toEvents : JValue → List Event
  | .jnull => [.enull]
  | .jbool b => [.eboolean b]
  | .jint i => [.enumI i]
  | .juint u => [.enumU u]
  | .jdouble d => [.enumD d]
  | .jstr s => [.estr s]
  | .jarr xs => .ebeginArray :: (toEventsArr xs ++ [.eendArray])
  | .jobj fs => .ebeginObject :: (toEventsObj fs ++ [.eendObject])

/-- Events of the elements of an array, each followed by `element`. -/
def toEventsArr : JValues → List Event
  | .nil => []
  | .cons v l => toEvents v ++ [.eelement] ++ toEventsArr l

/-- Events of the members of an object: `key`, value events, `member`. -/
def toEventsObj : JFields → List Event
  | .nil => []
  | .cons k v l => .ekey k :: (toEvents v ++ [.emember]) ++ toEventsObj l

end

/-! ## Compiled constraint nodes (`schema_node`) -/

/-- The scalar part of a compiled `schema_node` (flags, limits, format,
`m_required`, `m_property_dependencies`). -/
structure NodeCore where
  hasType : Bool := false
  types : TypeFlags := {}
  multipleOf : Option MultOf := none
  maximum : Option Limit := none
  exclMax : Bool := false
  minimum : Option Limit := none
  exclMin : Bool := false
  fmt : SFormat := .fnone
  required : List String := []
  propDeps : List (String × List String) := []
deriving Repr, DecidableEq

mutual

/-- A compiled `schema_node` of the fragment: scalar constraints plus the
composition edges `m_all_of`, `m_any_of`, `m_one_of`, `m_not` (already
resolved to built child nodes; the source builds them during the
`schema_container` closure). -/
inductive Node where
  | mk (core : NodeCore) (allOf : Nodes) (anyOf : Nodes) (oneOf : Nodes)
      (notS : OptNode)

/-- A list of compiled nodes. -/
inductive Nodes where
  | nil
  | cons (n : Node) (l : Nodes)

/-- An optional compiled node (`m_not`). -/
inductive OptNode where
  | onone
  | osome (n : Node)

end

/-- Scalar constraints of a node. -/
def Node.core : Node → NodeCore
  | .mk c _ _ _ _ => c

/-- `allOf` branches of a node. -/
def Node.allOf : Node → Nodes
  | .mk _ a _ _ _ => a

/-- `anyOf` branches of a node. -/
def Node.anyOf : Node → Nodes
  | .mk _ _ a _ _ => a

/-- `oneOf` branches of a node. -/
def Node.oneOf : Node → Nodes
  | .mk _ _ _ o _ => o

/-- `not` branch of a node. -/
def Node.notS : Node → OptNode
  | .mk _ _ _ _ n => n

/-- `HAS_DEPENDENCIES`: set when the `dependencies` object is non-empty (in
the fragment, when there are property dependencies). -/
def Node.hasDeps (n : Node) : Bool :=
  !n.core.propDeps.isEmpty

/-- The guard of the duplicate-key tracking in `schema_consumer::key`:
`m_flags & HAS_DEPENDENCIES || !m_node->m_required.empty()`. -/
def Node.tracksKeys (n : Node) : Bool :=
  n.hasDeps || !n.core.required.isEmpty

/-- Convert a node list to a standard list. -/
def Nodes.toList : Nodes → List Node
  | .nil => []
  | .cons n l => n :: Nodes.toList l

/-! ## The graph builder (`schema_node::schema_node`, fragment)

The node constructor performs the keyword checks in source order using
`find`; sub-schemas referenced by composition keywords are compiled
separately (the source defers this to the `schema_container` closure, so a
malformed sub-schema also fails the build, merely with a different message
order).  Keywords outside the fragment are not interpreted. -/

/-- `add_type( schema_flags )`: duplicate primitive type is an error. -/
def addTypeFlag (tf : TypeFlags) (v : TypeFlags) : Except String TypeFlags :=
  if tf.overlaps v then
    .error "invalid JSON Schema: duplicate primitive type"
  else
    .ok { tNull := tf.tNull || v.tNull, tBool := tf.tBool || v.tBool,
          tInt := tf.tInt || v.tInt, tNum := tf.tNum || v.tNum,
          tStr := tf.tStr || v.tStr, tArr := tf.tArr || v.tArr,
          tObj := tf.tObj || v.tObj }

/-- `add_type( string_view )`: map a primitive-type name to its bit. -/
def addTypeName (tf : TypeFlags) (s : String) : Except String TypeFlags :=
  if s = "null" then addTypeFlag tf nullFlag
  else if s = "boolean" then addTypeFlag tf boolFlag
  else if s = "integer" then addTypeFlag tf { tInt := true }
  else if s = "number" then addTypeFlag tf { tNum := true }
  else if s = "string" then addTypeFlag tf strFlag
  else if s = "array" then addTypeFlag tf arrFlag
  else if s = "object" then addTypeFlag tf objFlag
  else .error "invalid JSON Schema: invalid primitive type"

/-- The elements of an array-valued `type` keyword, each a string naming a
primitive type. -/
def addTypeList (tf : TypeFlags) : JValues → Except String TypeFlags
  | .nil => .ok tf
  | .cons v l =>
    match v with
    | .jstr s => do
      let tf2 ← addTypeName tf s
      addTypeList tf2 l
    | _ => .error "invalid JSON Schema: elements in array type must be strings"

/-- The `type` keyword stage: `(HAS_TYPE set?, primitive-type bits)`. -/
def stageType (fs : JFields) : Except String (Bool × TypeFlags) :=
  match findField fs "type" with
  | none => .ok (false, {})
  | some (.jstr s) => do
    let tf ← addTypeName {} s
    .ok (true, tf)
  | some (.jarr xs) => do
    let tf ← addTypeList {} xs
    .ok (true, tf)
  | some _ => .error "invalid JSON Schema: type must be string or array"

/-- Shape check of one composition keyword (`allOf`/`anyOf`/`oneOf`):
present implies a non-empty array. -/
def stageCompShape (fs : JFields) (key : String) : Except String Unit :=
  match findField fs key with
  | none => .ok ()
  | some (.jarr .nil) =>
    .error "invalid JSON Schema: composition keyword must be non-empty"
  | some (.jarr _) => .ok ()
  | some _ => .error "invalid JSON Schema: composition keyword must be array"

/-- The `multipleOf` keyword stage, source lines 411-441: a strictly positive
number; a `SIGNED` value is stored in `m_multiple_of.u` with flag
`HAS_MULTIPLE_OF_UNSIGNED`. -/
def stageMultipleOf (fs : JFields) : Except String (Option MultOf) :=
  match findField fs "multipleOf" with
  | none => .ok none
  | some (.jint i) =>
    if i ≤ 0 then
      .error "invalid JSON Schema: multipleOf must be strictly greater than zero"
    else .ok (some (.uns i.toNat))
  | some (.juint u) =>
    if u = 0 then
      .error "invalid JSON Schema: multipleOf must be strictly greater than zero"
    else .ok (some (.uns u))
  | some (.jdouble d) =>
    if ratLe d ratZero then
      .error "invalid JSON Schema: multipleOf must be strictly greater than zero"
    else .ok (some (.dbl d))
  | some _ => .error "invalid JSON Schema: multipleOf must be of type number"

/-- The `maximum`/`minimum` keyword stage, source lines 443-461 and 476-494:
the representation is kept (`HAS_*_SIGNED`/`UNSIGNED`/`DOUBLE`). -/
def stageLimit (fs : JFields) (key : String) : Except String (Option Limit) :=
  match findField fs key with
  | none => .ok none
  | some (.jint i) => .ok (some (.sgn i))
  | some (.juint u) => .ok (some (.uns u))
  | some (.jdouble d) => .ok (some (.dbl d))
  | some _ => .error "invalid JSON Schema: bound must be of type number"

/-- The `exclusiveMaximum`/`exclusiveMinimum` keyword stage, source lines
463-474 and 496-507: boolean, and the paired bound must already be present. -/
def stageExclusive (fs : JFields) (key : String) (limit : Option Limit) :
    Except String Bool :=
  match findField fs key with
  | none => .ok false
  | some (.jbool b) =>
    match limit with
    | none => .error "invalid JSON Schema: exclusive bound requires its bound"
    | some _ => .ok b
  | some _ => .error "invalid JSON Schema: exclusive bound must be boolean"

/-- The `format` keyword stage, source lines 569-593: must be a string;
outside the fragment's recognized set the value is ignored. -/
def stageFormat (fs : JFields) : Except String SFormat :=
  match findField fs "format" with
  | none => .ok .fnone
  | some (.jstr s) =>
    if s = "email" then .ok .email
    else if s = "hostname" then .ok .hostname
    else .ok .fnone
  | some _ => .error "invalid JSON Schema: format must be of type string"

/-- The elements of `required`, each a unique string. -/
def requiredList (acc : List String) : JValues → Except String (List String)
  | .nil => .ok acc
  | .cons v l =>
    match v with
    | .jstr s =>
      if s ∈ acc then .error "invalid JSON Schema: duplicate required key"
      else requiredList (acc ++ [s]) l
    | _ => .error "invalid JSON Schema: required elements must be strings"

/-- The `required` keyword stage, source lines 721-734. -/
def stageRequired (fs : JFields) : Except String (List String) :=
  match findField fs "required" with
  | none => .ok []
  | some (.jarr .nil) =>
    .error "invalid JSON Schema: required must have at least one element"
  | some (.jarr xs) => requiredList [] xs
  | some _ => .error "invalid JSON Schema: required must be of type array"

/-- All scalar keyword stages of the node constructor, in source order. -/
def scalarStages (fs : JFields) : Except String NodeCore := do
  let tp ← stageType fs
  let _ ← stageCompShape fs "allOf"
  let _ ← stageCompShape fs "anyOf"
  let _ ← stageCompShape fs "oneOf"
  let mo ← stageMultipleOf fs
  let mx ← stageLimit fs "maximum"
  let ex ← stageExclusive fs "exclusiveMaximum" mx
  let mn ← stageLimit fs "minimum"
  let en ← stageExclusive fs "exclusiveMinimum" mn
  let fm ← stageFormat fs
  let rq ← stageRequired fs
  .ok { hasType := tp.1, types := tp.2, multipleOf := mo, maximum := mx,
        exclMax := ex, minimum := mn, exclMin := en, fmt := fm,
        required := rq, propDeps := [] }

/-- The recursively compiled children of the composition keywords. -/
structure Kids where
  aoK : Option Nodes := none
  ayK : Option Nodes := none
  ooK : Option Nodes := none
  ntK : Option Node := none

mutual

/-- Compile one sub-schema into a node: the shape and scalar keyword checks
of the `schema_node` constructor, then the children referenced by the
composition keywords (built by the container closure in the source). -/
def buildNode : JValue → Except String Node
  | .jobj fs => do
    let core ← scalarStages fs
    let kids ← buildKids fs
    .ok (.mk core (kids.aoK.getD .nil) (kids.ayK.getD .nil)
      (kids.ooK.getD .nil)
      (match kids.ntK with
       | some n => .osome n
       | none => .onone))
  | _ => .error "invalid JSON Schema: a schema must be of type object"

/-- Compile every element of a composition array. -/
def buildNodes : JValues → Except String Nodes
  | .nil => .ok .nil
  | .cons v l => do
    let n ← buildNode v
    let ns ← buildNodes l
    .ok (.cons n ns)

/-- Collect and compile the sub-schemas referenced by `allOf`/`anyOf`/
`oneOf`/`not`; an earlier field with the same key wins, matching `find`. -/
def buildKids : JFields → Except String Kids
  | .nil => .ok {}
  | .cons k v rest => do
    let ks ← buildKids rest
    if k = "allOf" then
      match v with
      | .jarr xs => do
        let ns ← buildNodes xs
        .ok { ks with aoK := some ns }
      | _ => .ok { ks with aoK := none }
    else if k = "anyOf" then
      match v with
      | .jarr xs => do
        let ns ← buildNodes xs
        .ok { ks with ayK := some ns }
      | _ => .ok { ks with ayK := none }
    else if k = "oneOf" then
      match v with
      | .jarr xs => do
        let ns ← buildNodes xs
        .ok { ks with ooK := some ns }
      | _ => .ok { ks with ooK := none }
    else if k = "not" then do
      let n ← buildNode v
      .ok { ks with ntK := some n }
    else
      .ok ks

end

/-- Whether a build failed. -/
def isErr {α : Type} : Except String α → Bool
  | .error _ => true
  | .ok _ => false

/-! ## Validation sessions (`schema_consumer`)

Session state of the fragment: `m_keys`, `m_count` (top of stack first),
`m_match`, and the live child consumers `m_all_of`, `m_any_of`, `m_one_of`,
`m_not`.  Event handlers mirror the source's stage order; the stages of
keywords outside the fragment (`enum`, `items`, `properties`, `uniqueItems`,
length/count bounds, schema-valued dependencies) act on state the fragment
does not declare and are no-ops here. -/

mutual

/-- A `schema_consumer` of the fragment. -/
inductive Session where
  | mk (node : Node) (keys : List String) (count : List Nat) (m_match : Bool)
      (allOf : Sessions) (anyOf : Sessions) (oneOf : Sessions)
      (notC : OptSession)

/-- A vector of child consumers. -/
inductive Sessions where
  | nil
  | cons (s : Session) (l : Sessions)

/-- An optional child consumer (`m_not`). -/
inductive OptSession where
  | onone
  | osome (s : Session)

end

/-- The node of a session. -/
def Session.node : Session → Node
  | .mk n _ _ _ _ _ _ _ => n

/-- `m_keys` of a session. -/
def Session.keys : Session → List String
  | .mk _ k _ _ _ _ _ _ => k

/-- `m_count` of a session (top of the stack first). -/
def Session.count : Session → List Nat
  | .mk _ _ c _ _ _ _ _ => c

/-- `m_match` of a session. -/
def Session.m_match : Session → Bool
  | .mk _ _ _ m _ _ _ _ => m

/-- `m_all_of` of a session. -/
def Session.allOf : Session → Sessions
  | .mk _ _ _ _ a _ _ _ => a

/-- `m_any_of` of a session. -/
def Session.anyOf : Session → Sessions
  | .mk _ _ _ _ _ a _ _ => a

/-- `m_one_of` of a session. -/
def Session.oneOf : Session → Sessions
  | .mk _ _ _ _ _ _ o _ => o

/-- `m_not` of a session. -/
def Session.notC : Session → OptSession
  | .mk _ _ _ _ _ _ _ n => n

/-- Emptiness of a child-consumer vector. -/
def Sessions.isNilS : Sessions → Bool
  | .nil => true
  | .cons _ _ => false

mutual

/-- The `schema_consumer` constructor: child consumers for every
`allOf`/`anyOf`/`oneOf` branch and for the `not` sub-schema; `m_match`
starts `true`. -/
def mkSession : Node → Session
  | .mk core ao ay oo ns =>
    .mk (.mk core ao ay oo ns) [] [] true (mkSessions ao) (mkSessions ay)
      (mkSessions oo) (mkOptSession ns)

/-- Child consumers of a branch list. -/
def mkSessions : Nodes → Sessions
  | .nil => .nil
  | .cons n l => .cons (mkSession n) (mkSessions l)

/-- Child consumer of an optional `not` sub-schema. -/
def mkOptSession : OptNode → OptSession
  | .onone => .onone
  | .osome n => .osome (mkSession n)

end

/-- `validate_type( t )`: only at this session's own depth
(`m_count` empty) and only when a `type` constraint is declared;
`true` means the match flag survives. -/
def typeOk (n : Node) (count : List Nat) (t : TypeFlags) : Bool :=
  if !count.isEmpty then true
  else if !n.core.hasType then true
  else n.core.types.overlaps t

/-- `validate_number( int64_t )`: `validate_multiple_of` then the
`maximum` and `minimum` switches. -/
def checkNumberI (c : NodeCore) (v : Int) : Bool :=
  checkMultipleOfI c.multipleOf v && checkMaximumI c.maximum c.exclMax v &&
    checkMinimumI c.minimum c.exclMin v

/-- `validate_number( uint64_t )`. -/
def checkNumberU (c : NodeCore) (v : Nat) : Bool :=
  checkMultipleOfU c.multipleOf v && checkMaximumU c.maximum c.exclMax v &&
    checkMinimumU c.minimum c.exclMin v

/-- `validate_number( double )`. -/
def checkNumberD (c : NodeCore) (v : Rat) : Bool :=
  checkMultipleOfD c.multipleOf v && checkMaximumD c.maximum c.exclMax v &&
    checkMinimumD c.minimum c.exclMin v

/-- `validate_string`: the `format` check of the fragment
(`v.size() > 255` short-circuits `email` and `hostname`, so over-long
strings never reach the grammar).  The boolean below is the match flag when
`internal::parse` returns; on the inputs marked by `stringRaises` the source
instead throws `tao::pegtl::parse_error` out of `validate` and produces no
boolean at all — there the value of this total function is a model artifact,
not a program verdict. -/
def checkString (c : NodeCore) (s : String) : Bool :=
  match c.fmt with
  | .fnone => true
  | .email => !(s.length > 255) && (parseEmail s).returned
  | .hostname => !(s.length > 255) && (parseHostname s).returned

/-- The string inputs on which `validate_string` raises an uncaught
`tao::pegtl::parse_error` instead of returning (C++ `||` short-circuits, so
a string longer than 255 bytes is rejected before the grammar runs and
cannot raise). -/
def stringRaises (c : NodeCore) (s : String) : Bool :=
  match c.fmt with
  | .fnone => false
  | .email => !(s.length > 255) && (parseEmail s).raised
  | .hostname => !(s.length > 255) && (parseHostname s).raised

/-- `m_count.push_back( 0 )`. -/
def pushCount (ct : List Nat) : List Nat := 0 :: ct

/-- `++m_count.back()`. -/
def incCount : List Nat → List Nat
  | [] => []
  | h :: t => (h + 1) :: t

/-- `m_count.pop_back()`. -/
def popCount : List Nat → List Nat
  | [] => []
  | _ :: t => t

/-- `std::includes( m_keys, ..., required, ... )`. -/
def subsetOf (need keys : List String) : Bool :=
  need.all (fun k => keys.contains k)

/-- The `required` check of `end_object`, source lines 1766-1770. -/
def checkRequired (c : NodeCore) (keys : List String) : Bool :=
  subsetOf c.required keys

/-- The property-dependency check of `end_object`, source lines 1771-1780. -/
def checkPropDeps (c : NodeCore) (keys : List String) : Bool :=
  c.propDeps.all (fun p => !(keys.contains p.1) || subsetOf p.2 keys)

mutual

/-- One event delivered to a consumer: the event handlers of
`schema_consumer`, one `match` arm per event, each following the source's
stage order (`validate_type`, delegation via `validate_collections`, own-level
terminal checks, unconditional `m_count` bookkeeping). -/
def step (e : Event) : Session → Session
  | .mk nd ks ct mt ao ay oo nc =>
    match e with
    | .enull =>
      let m1 := mt && typeOk nd ct nullFlag
      let (ao2, okA) := if m1 then stepBreakAll .enull ao else (ao, true)
      let mA := m1 && okA
      let ay2 := if mA && !ay.isNilS then stepKeep .enull ay else ay
      let mB := if mA && !ay.isNilS then !ay2.isNilS else mA
      let oo2 := if mB && !oo.isNilS then stepKeep .enull oo else oo
      let mC := if mB && !oo.isNilS then !oo2.isNilS else mB
      let nc2 := if mC then stepNotC .enull nc else nc
      .mk nd ks ct mC ao2 ay2 oo2 nc2
    | .eboolean v =>
      let m1 := mt && typeOk nd ct boolFlag
      let (ao2, okA) := if m1 then stepBreakAll (.eboolean v) ao else (ao, true)
      let mA := m1 && okA
      let ay2 := if mA && !ay.isNilS then stepKeep (.eboolean v) ay else ay
      let mB := if mA && !ay.isNilS then !ay2.isNilS else mA
      let oo2 := if mB && !oo.isNilS then stepKeep (.eboolean v) oo else oo
      let mC := if mB && !oo.isNilS then !oo2.isNilS else mB
      let nc2 := if mC then stepNotC (.eboolean v) nc else nc
      .mk nd ks ct mC ao2 ay2 oo2 nc2
    | .enumI v =>
      let m1 := mt && typeOk nd ct intNumFlag
      let (ao2, okA) := if m1 then stepBreakAll (.enumI v) ao else (ao, true)
      let mA := m1 && okA
      let ay2 := if mA && !ay.isNilS then stepKeep (.enumI v) ay else ay
      let mB := if mA && !ay.isNilS then !ay2.isNilS else mA
      let oo2 := if mB && !oo.isNilS then stepKeep (.enumI v) oo else oo
      let mC := if mB && !oo.isNilS then !oo2.isNilS else mB
      let nc2 := if mC then stepNotC (.enumI v) nc else nc
      let mD := if mC && ct.isEmpty then mC && checkNumberI nd.core v else mC
      .mk nd ks ct mD ao2 ay2 oo2 nc2
    | .enumU v =>
      let m1 := mt && typeOk nd ct intNumFlag
      let (ao2, okA) := if m1 then stepBreakAll (.enumU v) ao else (ao, true)
      let mA := m1 && okA
      let ay2 := if mA && !ay.isNilS then stepKeep (.enumU v) ay else ay
      let mB := if mA && !ay.isNilS then !ay2.isNilS else mA
      let oo2 := if mB && !oo.isNilS then stepKeep (.enumU v) oo else oo
      let mC := if mB && !oo.isNilS then !oo2.isNilS else mB
      let nc2 := if mC then stepNotC (.enumU v) nc else nc
      let mD := if mC && ct.isEmpty then mC && checkNumberU nd.core v else mC
      .mk nd ks ct mD ao2 ay2 oo2 nc2
    | .enumD v =>
      let m1 := mt && typeOk nd ct numFlag
      let (ao2, okA) := if m1 then stepBreakAll (.enumD v) ao else (ao, true)
      let mA := m1 && okA
      let ay2 := if mA && !ay.isNilS then stepKeep (.enumD v) ay else ay
      let mB := if mA && !ay.isNilS then !ay2.isNilS else mA
      let oo2 := if mB && !oo.isNilS then stepKeep (.enumD v) oo else oo
      let mC := if mB && !oo.isNilS then !oo2.isNilS else mB
      let nc2 := if mC then stepNotC (.enumD v) nc else nc
      let mD := if mC && ct.isEmpty then mC && checkNumberD nd.core v else mC
      .mk nd ks ct mD ao2 ay2 oo2 nc2
    | .estr s =>
      let m1 := mt && typeOk nd ct strFlag
      let (ao2, okA) := if m1 then stepBreakAll (.estr s) ao else (ao, true)
      let mA := m1 && okA
      let ay2 := if mA && !ay.isNilS then stepKeep (.estr s) ay else ay
      let mB := if mA && !ay.isNilS then !ay2.isNilS else mA
      let oo2 := if mB && !oo.isNilS then stepKeep (.estr s) oo else oo
      let mC := if mB && !oo.isNilS then !oo2.isNilS else mB
      let nc2 := if mC then stepNotC (.estr s) nc else nc
      let mD := if mC && ct.isEmpty then mC && checkString nd.core s else mC
      .mk nd ks ct mD ao2 ay2 oo2 nc2
    | .ebeginArray =>
      let m1 := mt && typeOk nd ct arrFlag
      let (ao2, okA) := if m1 then stepBreakAll .ebeginArray ao else (ao, true)
      let mA := m1 && okA
      let ay2 := if mA && !ay.isNilS then stepKeep .ebeginArray ay else ay
      let mB := if mA && !ay.isNilS then !ay2.isNilS else mA
      let oo2 := if mB && !oo.isNilS then stepKeep .ebeginArray oo else oo
      let mC := if mB && !oo.isNilS then !oo2.isNilS else mB
      let nc2 := if mC then stepNotC .ebeginArray nc else nc
      .mk nd ks (pushCount ct) mC ao2 ay2 oo2 nc2
    | .eelement =>
      let (ao2, okA) := if mt then stepBreakAll .eelement ao else (ao, true)
      let mA := mt && okA
      let ay2 := if mA && !ay.isNilS then stepKeep .eelement ay else ay
      let mB := if mA && !ay.isNilS then !ay2.isNilS else mA
      let oo2 := if mB && !oo.isNilS then stepKeep .eelement oo else oo
      let mC := if mB && !oo.isNilS then !oo2.isNilS else mB
      let nc2 := if mC then stepNotC .eelement nc else nc
      .mk nd ks (incCount ct) mC ao2 ay2 oo2 nc2
    | .eendArray =>
      let (ao2, okA) := if mt then stepBreakAll .eendArray ao else (ao, true)
      let mA := mt && okA
      let ay2 := if mA && !ay.isNilS then stepKeep .eendArray ay else ay
      let mB := if mA && !ay.isNilS then !ay2.isNilS else mA
      let oo2 := if mB && !oo.isNilS then stepKeep .eendArray oo else oo
      let mC := if mB && !oo.isNilS then !oo2.isNilS else mB
      let nc2 := if mC then stepNotC .eendArray nc else nc
      .mk nd ks (popCount ct) mC ao2 ay2 oo2 nc2
    | .ebeginObject =>
      let m1 := mt && typeOk nd ct objFlag
      let (ao2, okA) := if m1 then stepBreakAll .ebeginObject ao else (ao, true)
      let mA := m1 && okA
      let ay2 := if mA && !ay.isNilS then stepKeep .ebeginObject ay else ay
      let mB := if mA && !ay.isNilS then !ay2.isNilS else mA
      let oo2 := if mB && !oo.isNilS then stepKeep .ebeginObject oo else oo
      let mC := if mB && !oo.isNilS then !oo2.isNilS else mB
      let nc2 := if mC then stepNotC .ebeginObject nc else nc
      .mk nd ks (pushCount ct) mC ao2 ay2 oo2 nc2
    | .ekey k =>
      let (ao2, okA) := if mt then stepBreakAll (.ekey k) ao else (ao, true)
      let mA := mt && okA
      let ay2 := if mA && !ay.isNilS then stepKeep (.ekey k) ay else ay
      let mB := if mA && !ay.isNilS then !ay2.isNilS else mA
      let oo2 := if mB && !oo.isNilS then stepKeep (.ekey k) oo else oo
      let mC := if mB && !oo.isNilS then !oo2.isNilS else mB
      let nc2 := if mC then stepNotC (.ekey k) nc else nc
      let dup := mC && ct.length == 1 && nd.tracksKeys && ks.contains k
      let ks2 :=
        if mC && ct.length == 1 && nd.tracksKeys && !ks.contains k then k :: ks
        else ks
      let mD := mC && !dup
      .mk nd ks2 ct mD ao2 ay2 oo2 nc2
    | .emember =>
      let (ao2, okA) := if mt then stepBreakAll .emember ao else (ao, true)
      let mA := mt && okA
      let ay2 := if mA && !ay.isNilS then stepKeep .emember ay else ay
      let mB := if mA && !ay.isNilS then !ay2.isNilS else mA
      let oo2 := if mB && !oo.isNilS then stepKeep .emember oo else oo
      let mC := if mB && !oo.isNilS then !oo2.isNilS else mB
      let nc2 := if mC then stepNotC .emember nc else nc
      .mk nd ks (incCount ct) mC ao2 ay2 oo2 nc2
    | .eendObject =>
      let (ao2, okA) := if mt then stepBreakAll .eendObject ao else (ao, true)
      let mA := mt && okA
      let ay2 := if mA && !ay.isNilS then stepKeep .eendObject ay else ay
      let mB := if mA && !ay.isNilS then !ay2.isNilS else mA
      let oo2 := if mB && !oo.isNilS then stepKeep .eendObject oo else oo
      let mC := if mB && !oo.isNilS then !oo2.isNilS else mB
      let nc2 := if mC then stepNotC .eendObject nc else nc
      let mD :=
        if mC && ct.length == 1 && !nd.core.required.isEmpty then
          mC && checkRequired nd.core ks
        else mC
      let mE :=
        if mD && ct.length == 1 && nd.hasDeps then
          mD && checkPropDeps nd.core ks
        else mD
      .mk nd ks (popCount ct) mE ao2 ay2 oo2 nc2

/-- `validate_all_of`: deliver the event to each branch in order; a failing
branch stops the loop (`m_match = false; break`), later branches stay
untouched. -/
def stepBreakAll (e : Event) : Sessions → Sessions × Bool
  | .nil => (.nil, true)
  | .cons c l =>
    let c2 := step e c
    if c2.m_match then
      let r := stepBreakAll e l
      (.cons c2 r.1, r.2)
    else
      (.cons c2 l, false)

/-- `validate_any_of`/`validate_one_of`: deliver the event to each branch
and erase the branches whose match flag fails. -/
def stepKeep (e : Event) : Sessions → Sessions
  | .nil => .nil
  | .cons c l =>
    let c2 := step e c
    if c2.m_match then .cons c2 (stepKeep e l) else stepKeep e l

/-- `validate_not`: deliver the event to the `not` branch; when the branch
fails, it is discarded (`m_not.reset()`), never the parent's match flag. -/
def stepNotC (e : Event) : OptSession → OptSession
  | .onone => .onone
  | .osome c =>
    let c2 := step e c
    if c2.m_match then .osome c2 else .onone

end

mutual

/-- `schema_consumer::finalize`, source lines 1379-1420: settle the pending
`allOf`/`anyOf`/`oneOf`/`not` branches and return the verdict (the
schema-valued-dependency block iterates an empty map in the fragment). -/
def finalizeS : Session → Bool
  | .mk nd ks ct mt ao ay oo nc =>
    let m1 := if mt && !ao.isNilS then finAll ao else mt
    let m2 := if m1 && !ay.isNilS then finCount ay != 0 else m1
    let m3 := if m2 && !oo.isNilS then finCount oo == 1 else m2
    let m4 :=
      if m3 then
        match nc with
        | .osome c => !finalizeS c
        | .onone => m3
      else m3
    m4

/-- The `allOf` loop of `finalize`: every branch must finalize `true`
(the loop breaks at the first failure). -/
def finAll : Sessions → Bool
  | .nil => true
  | .cons c l => if finalizeS c then finAll l else false

/-- The number of surviving branches after the `anyOf`/`oneOf` erase in
`finalize`. -/
def finCount : Sessions → Nat
  | .nil => 0
  | .cons c l => (if finalizeS c then 1 else 0) + finCount l

end

/-- Deliver an event stream to a consumer. -/
def runE (es : List Event) (s : Session) : Session :=
  es.foldl (fun t e => step e t) s

/-- Validate an event stream against a node: fresh consumer, the events,
then `finalize` — the shape of `basic_schema::validate`. -/
def validateE (n : Node) (es : List Event) : Bool :=
  finalizeS (runE es (mkSession n))

/-- `basic_schema::validate( v )`: the consumer fed by `events::from_value`. -/
def validateValue (n : Node) (v : JValue) : Bool :=
  validateE n (toEvents v)

/-- `basic_schema::validate` with the shared container made explicit: the
result together with the container state after the call (the source takes the
container through `const std::shared_ptr< const schema_container >` and
builds a fresh consumer per call, so the container is returned unchanged). -/
def schemaValidate (n : Node) (v : JValue) : Bool × Node :=
  (validateValue n v, n)

/-! ## Derived notions used by the statements and proofs -/

/-- The unconditional `m_count` bookkeeping of one event
(`push_back` on aggregate open, `++back()` on `element`/`member`,
`pop_back` on aggregate close). -/
def countUpd (e : Event) (ct : List Nat) : List Nat :=
  match e with
  | .ebeginArray => pushCount ct
  | .ebeginObject => pushCount ct
  | .eelement => incCount ct
  | .emember => incCount ct
  | .eendArray => popCount ct
  | .eendObject => popCount ct
  | _ => ct

/-- `m_count` after a whole event stream. -/
def countFold (es : List Event) (ct : List Nat) : List Nat :=
  es.foldl (fun c e => countUpd e c) ct

/-- Map a function over a child-consumer vector. -/
def sMap (f : Session → Session) : Sessions → Sessions
  | .nil => .nil
  | .cons c l => .cons (f c) (sMap f l)

/-- Keep the child consumers whose match flag is still set. -/
def sFilter : Sessions → Sessions
  | .nil => .nil
  | .cons c l => if c.m_match then .cons c (sFilter l) else sFilter l

/-- All child consumers in the vector have their match flag set. -/
def allAlive : Sessions → Bool
  | .nil => true
  | .cons c l => c.m_match && allAlive l

/-- The surviving branches of an `anyOf`/`oneOf` vector after a whole event
stream: each branch run standalone, keeping those whose match flag is set. -/
def survOf (es : List Event) (cs : Sessions) : Sessions :=
  sFilter (sMap (runE es) cs)

/-- The `m_not` pointer after a whole event stream. -/
def notFold (es : List Event) (nc : OptSession) : OptSession :=
  es.foldl (fun c e => stepNotC e c) nc

/-- A root node declaring only `oneOf` with the given branches. -/
def oneOfNode (bs : Nodes) : Node := .mk {} .nil .nil bs .onone

/-- A root node declaring only `not` with the given sub-schema. -/
def notNode (b : Node) : Node := .mk {} .nil .nil .nil (.osome b)

/-- A root node declaring only a `type` constraint. -/
def typeNode (tf : TypeFlags) : Node :=
  .mk { hasType := true, types := tf } .nil .nil .nil .onone

/-- A root node declaring only `multipleOf` with a floating divisor. -/
def multOfNode (d : Rat) : Node :=
  .mk { multipleOf := some (.dbl d) } .nil .nil .nil .onone

/-- The schema document `{"multipleOf": d}` with a floating divisor. -/
def multOfDoc (d : Rat) : JValue :=
  .jobj (.cons "multipleOf" (.jdouble d) .nil)

/-- A root node declaring only `format: "email"`. -/
def emailNode : Node := .mk { fmt := .email } .nil .nil .nil .onone

/-- The schema document `{"format": "email"}`. -/
def emailDoc : JValue := .jobj (.cons "format" (.jstr "email") .nil)

/-- The scalar part of the node compiled from a schema document, when the
build succeeds. -/
def builtCore (doc : JValue) : Option NodeCore :=
  match buildNode doc with
  | .ok n => some n.core
  | .error _ => none

/-- The numeric representation of a schema value, when it is a number. -/
def jNumKind : JValue → Option NumKind
  | .jint _ => some .sgnK
  | .juint _ => some .unsK
  | .jdouble _ => some .dblK
  | _ => none

/-- Whether a JSON value is a boolean. -/
def JValue.isBool : JValue → Bool
  | .jbool _ => true
  | _ => false

/-- A schema document with a signed `maximum`, an unsigned `minimum` and a
floating `multipleOf`. -/
def mixedNumDoc : JFields :=
  .cons "maximum" (.jint (-3)) (.cons "minimum" (.juint 5)
    (.cons "multipleOf" (.jdouble (mkRat 3 2)) .nil))

/-- The scalar constraints compiled from `mixedNumDoc`. -/
def mixedNumCore : NodeCore :=
  { maximum := some (.sgn (-3)), minimum := some (.uns 5),
    multipleOf := some (.dbl (mkRat 3 2)) }

/-- The node compiled from `mixedNumDoc`. -/
def mixedNumNode : Node := .mk mixedNumCore .nil .nil .nil .onone

/-! ## Basic lemmas: the match flag is monotone and a fresh consumer starts
with it set -/

theorem mkSession_m_match (n : Node) : (mkSession n).m_match = true := by
  cases n
  rfl

theorem stepNotC_onone (e : Event) : stepNotC e .onone = .onone := by
  simp [stepNotC]

theorem step_dead (e : Event) (nd : Node) (ks : List String) (ct : List Nat)
    (ao ay oo : Sessions) (nc : OptSession) :
    step e (.mk nd ks ct false ao ay oo nc) =
      .mk nd ks (countUpd e ct) false ao ay oo nc := by
  cases e <;> simp [step, countUpd]

theorem step_m_match_mono (e : Event) (s : Session) (h : s.m_match = false) :
    (step e s).m_match = false := by
  cases s with
  | mk nd ks ct mt ao ay oo nc =>
    simp only [Session.m_match] at h
    subst h
    rw [step_dead]
    rfl

theorem runE_dead (es : List Event) (nd : Node) (ks : List String)
    (ct : List Nat) (ao ay oo : Sessions) (nc : OptSession) :
    runE es (.mk nd ks ct false ao ay oo nc) =
      .mk nd ks (countFold es ct) false ao ay oo nc := by
  induction es generalizing ct with
  | nil => rfl
  | cons e es ih =>
    show runE es (step e (.mk nd ks ct false ao ay oo nc)) = _
    rw [step_dead, ih]
    rfl

theorem runE_m_match_mono (es : List Event) (s : Session)
    (h : s.m_match = false) : (runE es s).m_match = false := by
  cases s with
  | mk nd ks ct mt ao ay oo nc =>
    simp only [Session.m_match] at h
    subst h
    rw [runE_dead]
    rfl

theorem finalizeS_dead (s : Session) (h : s.m_match = false) :
    finalizeS s = false := by
  cases s with
  | mk nd ks ct mt ao ay oo nc =>
    simp only [Session.m_match] at h
    subst h
    rw [finalizeS.eq_def]
    simp

/-! ## Lemmas about the branch vectors -/

theorem stepKeep_eq (e : Event) :
    (ss : Sessions) → stepKeep e ss = sFilter (sMap (step e) ss)
  | .nil => rfl
  | .cons c l => by simp only [stepKeep, sMap, sFilter, stepKeep_eq e l]

theorem sMap_runE_nil : (ss : Sessions) → sMap (runE []) ss = ss
  | .nil => rfl
  | .cons c l => by simp only [sMap, sMap_runE_nil l]; rfl

theorem sFilter_allAlive :
    (ss : Sessions) → allAlive ss = true → sFilter ss = ss
  | .nil, _ => rfl
  | .cons c l, h => by
    simp only [allAlive, Bool.and_eq_true] at h
    simp only [sFilter, h.1, sFilter_allAlive l h.2, if_pos]

theorem allAlive_sFilter : (ss : Sessions) → allAlive (sFilter ss) = true
  | .nil => rfl
  | .cons c l => by
    by_cases h : c.m_match = true
    · simp only [sFilter, h, if_pos, allAlive, allAlive_sFilter l,
        Bool.and_true]
    · simp only [Bool.not_eq_true] at h
      simp only [sFilter, h, allAlive_sFilter l]
      simp [h, allAlive_sFilter l]

theorem sFilter_sMap_sFilter (f : Session → Session)
    (hf : ∀ s, s.m_match = false → (f s).m_match = false) :
    (ss : Sessions) → sFilter (sMap f (sFilter ss)) = sFilter (sMap f ss)
  | .nil => rfl
  | .cons c l => by
    by_cases h : c.m_match = true
    · simp only [sFilter, sMap, h, if_pos, sFilter_sMap_sFilter f hf l]
    · simp only [Bool.not_eq_true] at h
      simp only [sFilter, sMap, h]
      rw [if_neg (by simp), if_neg (by simp [hf c h])]
      exact sFilter_sMap_sFilter f hf l

theorem sMap_sMap (f g : Session → Session) :
    (ss : Sessions) → sMap f (sMap g ss) = sMap (fun s => f (g s)) ss
  | .nil => rfl
  | .cons c l => by simp only [sMap, sMap_sMap f g l]

theorem allAlive_stepKeep (e : Event) (ss : Sessions) :
    allAlive (stepKeep e ss) = true := by
  rw [stepKeep_eq]
  exact allAlive_sFilter _

theorem isNilS_eq_nil (ss : Sessions) (h : ss.isNilS = true) : ss = .nil := by
  cases ss with
  | nil => rfl
  | cons c l => simp [Sessions.isNilS] at h

theorem runE_cons (e : Event) (es : List Event) (s : Session) :
    runE (e :: es) s = runE es (step e s) := rfl

theorem survOf_cons (e : Event) (es : List Event) (cs : Sessions) :
    survOf (e :: es) cs = survOf es (stepKeep e cs) := by
  rw [survOf, survOf, stepKeep_eq,
    sFilter_sMap_sFilter (runE es) (runE_m_match_mono es), sMap_sMap]
  rfl

theorem survOf_nil (cs : Sessions) (h : allAlive cs = true) :
    survOf [] cs = cs := by
  rw [survOf, sMap_runE_nil, sFilter_allAlive _ h]

theorem finCount_sFilter : (ss : Sessions) → finCount (sFilter ss) = finCount ss
  | .nil => rfl
  | .cons c l => by
    by_cases h : c.m_match = true
    · simp only [sFilter, h, if_pos, finCount, finCount_sFilter l]
    · simp only [Bool.not_eq_true] at h
      simp only [sFilter, h, finCount]
      rw [if_neg (by simp), finalizeS_dead c h]
      simpa using finCount_sFilter l

theorem mkSessions_allAlive : (ns : Nodes) → allAlive (mkSessions ns) = true
  | .nil => rfl
  | .cons n l => by
    simp [mkSessions, allAlive, mkSession_m_match, mkSessions_allAlive l]

theorem mkSessions_isNilS (ns : Nodes) (h : ns ≠ .nil) :
    (mkSessions ns).isNilS = false := by
  cases ns with
  | nil => exact absurd rfl h
  | cons n l => rfl

theorem finCount_sMap_mkSessions (f : Session → Session) :
    (ns : Nodes) → finCount (sMap f (mkSessions ns)) =
      ns.toList.countP (fun n => finalizeS (f (mkSession n)))
  | .nil => rfl
  | .cons n l => by
    simp only [mkSessions, sMap, finCount, Nodes.toList, List.countP_cons,
      finCount_sMap_mkSessions f l]
    by_cases h : finalizeS (f (mkSession n)) = true
    · simp [h, Nat.add_comm]
    · simp only [Bool.not_eq_true] at h
      simp [h]

/-! ## The `oneOf` composition: pruning during streaming, survivor count at
`finalize` -/

theorem typeOk_noType (n : Node) (hn : n.core.hasType = false)
    (ct : List Nat) (t : TypeFlags) : typeOk n ct t = true := by
  simp [typeOk, hn]

theorem oneOfNode_core (bs : Nodes) : (oneOfNode bs).core = {} := rfl

theorem oneOfNode_tracksKeys (bs : Nodes) :
    (oneOfNode bs).tracksKeys = false := rfl

theorem oneOfNode_hasDeps (bs : Nodes) : (oneOfNode bs).hasDeps = false := rfl

theorem step_oneOf_alive (e : Event) (bs : Nodes) (ks : List String)
    (ct : List Nat) (cs : Sessions) :
    step e (.mk (oneOfNode bs) ks ct true .nil .nil cs .onone) =
      .mk (oneOfNode bs) ks (countUpd e ct)
        (if cs.isNilS then true else !(stepKeep e cs).isNilS)
        .nil .nil (if cs.isNilS then cs else stepKeep e cs) .onone := by
  have hty : ∀ t, typeOk (oneOfNode bs) ct t = true := fun t =>
    typeOk_noType (oneOfNode bs) rfl ct t
  cases e <;>
    cases cs <;>
      simp [step, hty, stepBreakAll, stepNotC, Sessions.isNilS, countUpd,
        oneOfNode_core, oneOfNode_hasDeps, oneOfNode_tracksKeys, checkNumberI,
        checkNumberU, checkNumberD, checkMultipleOfI, checkMultipleOfU,
        checkMultipleOfD, checkMaximumI, checkMaximumU, checkMaximumD,
        checkMinimumI, checkMinimumU, checkMinimumD, checkString,
        checkRequired, checkPropDeps]

theorem runE_oneOf (bs : Nodes) (es : List Event) :
    ∀ (ks : List String) (ct : List Nat) (cs : Sessions),
      cs.isNilS = false → allAlive cs = true →
      runE es (.mk (oneOfNode bs) ks ct true .nil .nil cs .onone) =
        .mk (oneOfNode bs) ks (countFold es ct) (!(survOf es cs).isNilS)
          .nil .nil (survOf es cs) .onone := by
  induction es with
  | nil =>
    intro ks ct cs hne hal
    simp [runE, countFold, survOf_nil cs hal, hne]
  | cons e es ih =>
    intro ks ct cs hne hal
    rw [runE_cons, step_oneOf_alive, if_neg (by simp [hne]),
      if_neg (by simp [hne])]
    by_cases hk : (stepKeep e cs).isNilS = true
    · have hnil : stepKeep e cs = .nil := isNilS_eq_nil _ hk
      rw [hnil]
      simp only [Sessions.isNilS, Bool.not_true]
      rw [runE_dead, survOf_cons, hnil]
      rfl
    · simp only [Bool.not_eq_true] at hk
      rw [hk]
      simp only [Bool.not_false]
      rw [ih ks (countUpd e ct) (stepKeep e cs) hk (allAlive_stepKeep e cs)]
      rw [survOf_cons]
      rfl

theorem finalizeS_oneOf_shape (nd : Node) (ks : List String) (ct : List Nat)
    (m : Bool) (oo : Sessions) :
    finalizeS (.mk nd ks ct m .nil .nil oo .onone) =
      (if m && !oo.isNilS then finCount oo == 1 else m) := by
  rw [finalizeS.eq_def]
  simp [Sessions.isNilS]

theorem validateE_oneOf (bs : Nodes) (es : List Event) (h : bs ≠ .nil) :
    validateE (oneOfNode bs) es =
      (bs.toList.countP (fun b => validateE b es) == 1) := by
  have hmk : mkSession (oneOfNode bs) =
      .mk (oneOfNode bs) [] [] true .nil .nil (mkSessions bs) .onone := rfl
  rw [validateE, hmk, runE_oneOf bs es [] [] (mkSessions bs)
    (mkSessions_isNilS bs h) (mkSessions_allAlive bs),
    finalizeS_oneOf_shape]
  have hcnt : finCount (survOf es (mkSessions bs)) =
      bs.toList.countP (fun b => validateE b es) := by
    rw [survOf, finCount_sFilter, finCount_sMap_mkSessions]
    rfl
  cases hsurv : survOf es (mkSessions bs) with
  | nil =>
    rw [hsurv] at hcnt
    have h0 : finCount Sessions.nil = 0 := rfl
    rw [h0] at hcnt
    simp [Sessions.isNilS, ← hcnt]
  | cons c l =>
    rw [hsurv] at hcnt
    simp only [Sessions.isNilS, Bool.not_false, Bool.and_true]
    rw [← hcnt]
    simp [Sessions.isNilS]

/-! ## The `not` composition: a failing branch is discarded during streaming,
the verdict is inverted at `finalize` -/

theorem notNode_core (b : Node) : (notNode b).core = {} := rfl

theorem notNode_tracksKeys (b : Node) : (notNode b).tracksKeys = false := rfl

theorem notNode_hasDeps (b : Node) : (notNode b).hasDeps = false := rfl

theorem step_not_alive (e : Event) (b : Node) (ks : List String)
    (ct : List Nat) (nc : OptSession) :
    step e (.mk (notNode b) ks ct true .nil .nil .nil nc) =
      .mk (notNode b) ks (countUpd e ct) true .nil .nil .nil
        (stepNotC e nc) := by
  have hty : ∀ t, typeOk (notNode b) ct t = true := fun t =>
    typeOk_noType (notNode b) rfl ct t
  cases e <;>
    simp [step, hty, stepBreakAll, Sessions.isNilS, countUpd, notNode_core,
      notNode_hasDeps, notNode_tracksKeys, checkNumberI, checkNumberU,
      checkNumberD, checkMultipleOfI, checkMultipleOfU, checkMultipleOfD,
      checkMaximumI, checkMaximumU, checkMaximumD, checkMinimumI,
      checkMinimumU, checkMinimumD, checkString, checkRequired, checkPropDeps]

theorem runE_not (b : Node) (es : List Event) :
    ∀ (ks : List String) (ct : List Nat) (nc : OptSession),
      runE es (.mk (notNode b) ks ct true .nil .nil .nil nc) =
        .mk (notNode b) ks (countFold es ct) true .nil .nil .nil
          (notFold es nc) := by
  induction es with
  | nil => intro ks ct nc; rfl
  | cons e es ih =>
    intro ks ct nc
    rw [runE_cons, step_not_alive, ih]
    rfl

theorem notFold_onone (es : List Event) : notFold es .onone = .onone := by
  induction es with
  | nil => rfl
  | cons e es ih =>
    show notFold es (stepNotC e .onone) = _
    rw [stepNotC_onone, ih]

theorem notFold_osome (es : List Event) :
    ∀ c : Session, c.m_match = true → notFold es (.osome c) =
      (if (runE es c).m_match then .osome (runE es c) else .onone) := by
  induction es with
  | nil =>
    intro c h
    simp [notFold, runE, h]
  | cons e es ih =>
    intro c hc
    show notFold es (stepNotC e (.osome c)) = _
    rw [stepNotC]
    by_cases h : (step e c).m_match = true
    · simp only [h, if_pos]
      rw [ih (step e c) h]
      rfl
    · simp only [Bool.not_eq_true] at h
      simp only [h]
      rw [if_neg (by simp), notFold_onone, runE_cons]
      rw [if_neg (by simp [runE_m_match_mono es (step e c) h])]

theorem finalizeS_not_shape (nd : Node) (ks : List String) (ct : List Nat)
    (nc : OptSession) :
    finalizeS (.mk nd ks ct true .nil .nil .nil nc) =
      (match nc with
       | .osome c => !finalizeS c
       | .onone => true) := by
  rw [finalizeS.eq_def]
  simp [Sessions.isNilS]

theorem validateE_not (b : Node) (es : List Event) :
    validateE (notNode b) es = !validateE b es := by
  have hmk : mkSession (notNode b) =
      .mk (notNode b) [] [] true .nil .nil .nil (.osome (mkSession b)) := rfl
  rw [validateE, hmk, runE_not,
    notFold_osome _ (mkSession b) (mkSession_m_match b), validateE]
  by_cases h : (runE es (mkSession b)).m_match = true
  · rw [if_pos h, finalizeS_not_shape]
  · simp only [Bool.not_eq_true] at h
    rw [if_neg (by simp [h]), finalizeS_not_shape,
      finalizeS_dead _ h]
    rfl

/-! ## Builder lemmas: error propagation and inversion of the numeric
keyword stages -/

theorem isErr_bind {a b : Type} (x : Except String a) (f : a → Except String b)
    (h : isErr x = true) : isErr (x >>= f) = true := by
  cases x with
  | error m => rfl
  | ok v => simp [isErr] at h

theorem stageLimit_of_none (fs : JFields) (key : String)
    (h : findField fs key = none) : stageLimit fs key = .ok none := by
  simp [stageLimit, h]

theorem stageExclusive_err (fs : JFields) (key : String) (v : JValue)
    (limit : Option Limit) (hf : findField fs key = some v)
    (hbad : v.isBool = false ∨ limit = none) :
    isErr (stageExclusive fs key limit) = true := by
  unfold stageExclusive
  rw [hf]
  cases v with
  | jbool b =>
    cases hbad with
    | inl h => simp [JValue.isBool] at h
    | inr h => rw [h]; rfl
  | jnull => rfl
  | jint i => rfl
  | juint u => rfl
  | jdouble d => rfl
  | jstr s => rfl
  | jarr xs => rfl
  | jobj fs2 => rfl

theorem scalarStages_err_of_exclusive_max (fs : JFields) (v : JValue)
    (hf : findField fs "exclusiveMaximum" = some v)
    (hbad : v.isBool = false ∨ findField fs "maximum" = none) :
    isErr (scalarStages fs) = true := by
  unfold scalarStages
  cases h1 : stageType fs <;> simp only [Bind.bind, Except.bind, isErr]
  cases h2 : stageCompShape fs "allOf" <;>
    simp only [Bind.bind, Except.bind, isErr]
  cases h3 : stageCompShape fs "anyOf" <;>
    simp only [Bind.bind, Except.bind, isErr]
  cases h4 : stageCompShape fs "oneOf" <;>
    simp only [Bind.bind, Except.bind, isErr]
  cases h5 : stageMultipleOf fs <;> simp only [Bind.bind, Except.bind, isErr]
  cases h6 : stageLimit fs "maximum" <;>
    simp only [Bind.bind, Except.bind, isErr]
  case ok.ok.ok.ok.ok.ok tp u2 u3 u4 mo mx =>
    have hex : isErr (stageExclusive fs "exclusiveMaximum" mx) = true := by
      refine stageExclusive_err fs _ v mx hf ?_
      cases hbad with
      | inl h => exact Or.inl h
      | inr h =>
        refine Or.inr ?_
        rw [stageLimit_of_none fs "maximum" h] at h6
        exact ((Except.ok.injEq _ _).mp h6).symm
    cases h7 : stageExclusive fs "exclusiveMaximum" mx with
    | error m => simp only [Bind.bind, Except.bind, isErr]
    | ok ex => rw [h7] at hex; simp [isErr] at hex
theorem scalarStages_err_of_exclusive_min (fs : JFields) (v : JValue)
    (hf : findField fs "exclusiveMinimum" = some v)
    (hbad : v.isBool = false ∨ findField fs "minimum" = none) :
    isErr (scalarStages fs) = true := by
  unfold scalarStages
  cases h1 : stageType fs <;> simp only [Bind.bind, Except.bind, isErr]
  cases h2 : stageCompShape fs "allOf" <;>
    simp only [Bind.bind, Except.bind, isErr]
  cases h3 : stageCompShape fs "anyOf" <;>
    simp only [Bind.bind, Except.bind, isErr]
  cases h4 : stageCompShape fs "oneOf" <;>
    simp only [Bind.bind, Except.bind, isErr]
  cases h5 : stageMultipleOf fs <;> simp only [Bind.bind, Except.bind, isErr]
  cases h6 : stageLimit fs "maximum" <;>
    simp only [Bind.bind, Except.bind, isErr]
  cases h7 : stageExclusive fs "exclusiveMaximum" _ <;>
    simp only [Bind.bind, Except.bind, isErr]
  cases h8 : stageLimit fs "minimum" <;>
    simp only [Bind.bind, Except.bind, isErr]
  case ok.ok.ok.ok.ok.ok.ok.ok tp u2 u3 u4 mo mx ex mn =>
    have hex : isErr (stageExclusive fs "exclusiveMinimum" mn) = true := by
      refine stageExclusive_err fs _ v mn hf ?_
      cases hbad with
      | inl h => exact Or.inl h
      | inr h =>
        refine Or.inr ?_
        rw [stageLimit_of_none fs "minimum" h] at h8
        exact ((Except.ok.injEq _ _).mp h8).symm
    cases h9 : stageExclusive fs "exclusiveMinimum" mn with
    | error m => simp only [Bind.bind, Except.bind, isErr]
    | ok en => rw [h9] at hex; simp [isErr] at hex

theorem buildNode_err_of_scalar (fs : JFields)
    (h : isErr (scalarStages fs) = true) :
    isErr (buildNode (.jobj fs)) = true := by
  rw [buildNode]
  exact isErr_bind _ _ h

theorem buildNode_obj_ok (fs : JFields) (n : Node)
    (h : buildNode (.jobj fs) = .ok n) : scalarStages fs = .ok n.core := by
  rw [buildNode] at h
  cases h1 : scalarStages fs with
  | error m => rw [h1] at h; simp [Bind.bind, Except.bind] at h
  | ok core =>
    rw [h1] at h
    simp only [Bind.bind, Except.bind] at h
    cases h2 : buildKids fs with
    | error m => rw [h2] at h; simp [Except.bind] at h
    | ok kids =>
      rw [h2] at h
      simp only [Except.bind, Except.ok.injEq] at h
      rw [← h]
      rfl

theorem scalarStages_ok_fields (fs : JFields) (core : NodeCore)
    (h : scalarStages fs = .ok core) :
    stageMultipleOf fs = .ok core.multipleOf ∧
      stageLimit fs "maximum" = .ok core.maximum ∧
      stageLimit fs "minimum" = .ok core.minimum := by
  unfold scalarStages at h
  cases h1 : stageType fs with
  | error m =>
    rw [h1] at h
    exact absurd h (by simp [Bind.bind, Except.bind])
  | ok tp =>
    rw [h1] at h
    simp only [Bind.bind, Except.bind] at h
    cases h2 : stageCompShape fs "allOf" with
    | error m =>
      rw [h2] at h
      exact absurd h (by simp [Bind.bind, Except.bind])
    | ok u2 =>
      rw [h2] at h
      simp only [Bind.bind, Except.bind] at h
      cases h3 : stageCompShape fs "anyOf" with
      | error m =>
        rw [h3] at h
        exact absurd h (by simp [Bind.bind, Except.bind])
      | ok u3 =>
        rw [h3] at h
        simp only [Bind.bind, Except.bind] at h
        cases h4 : stageCompShape fs "oneOf" with
        | error m =>
          rw [h4] at h
          exact absurd h (by simp [Bind.bind, Except.bind])
        | ok u4 =>
          rw [h4] at h
          simp only [Bind.bind, Except.bind] at h
          cases h5 : stageMultipleOf fs with
          | error m =>
            rw [h5] at h
            exact absurd h (by simp [Bind.bind, Except.bind])
          | ok mo =>
            rw [h5] at h
            simp only [Bind.bind, Except.bind] at h
            cases h6 : stageLimit fs "maximum" with
            | error m =>
              rw [h6] at h
              exact absurd h (by simp [Bind.bind, Except.bind])
            | ok mx =>
              rw [h6] at h
              simp only [Bind.bind, Except.bind] at h
              cases h7 : stageExclusive fs "exclusiveMaximum" mx with
              | error m =>
                rw [h7] at h
                exact absurd h (by simp [Bind.bind, Except.bind])
              | ok ex =>
                rw [h7] at h
                simp only [Bind.bind, Except.bind] at h
                cases h8 : stageLimit fs "minimum" with
                | error m =>
                  rw [h8] at h
                  exact absurd h (by simp [Bind.bind, Except.bind])
                | ok mn =>
                  rw [h8] at h
                  simp only [Bind.bind, Except.bind] at h
                  cases h9 : stageExclusive fs "exclusiveMinimum" mn with
                  | error m =>
                    rw [h9] at h
                    exact absurd h (by simp [Bind.bind, Except.bind])
                  | ok en =>
                    rw [h9] at h
                    simp only [Bind.bind, Except.bind] at h
                    cases h10 : stageFormat fs with
                    | error m =>
                      rw [h10] at h
                      exact absurd h (by simp [Bind.bind, Except.bind])
                    | ok fm =>
                      rw [h10] at h
                      simp only [Bind.bind, Except.bind] at h
                      cases h11 : stageRequired fs with
                      | error m =>
                        rw [h11] at h
                        exact absurd h (by simp [Bind.bind, Except.bind])
                      | ok rq =>
                        rw [h11] at h
                        simp only [Bind.bind, Except.bind] at h
                        simp only [Except.ok.injEq] at h
                        rw [← h]
                        exact ⟨rfl, rfl, rfl⟩


theorem stageMultipleOf_int (fs : JFields) (i : Int) (mo : Option MultOf)
    (h : stageMultipleOf fs = .ok mo)
    (hf : findField fs "multipleOf" = some (.jint i)) :
    0 < i ∧ mo = some (.uns i.toNat) := by
  unfold stageMultipleOf at h
  rw [hf] at h
  by_cases hi : i ≤ 0
  · simp [hi] at h
  · simp only [hi, if_false, reduceIte, Except.ok.injEq] at h
    exact ⟨by omega, h.symm⟩

theorem stageMultipleOf_uint (fs : JFields) (u : Nat) (mo : Option MultOf)
    (h : stageMultipleOf fs = .ok mo)
    (hf : findField fs "multipleOf" = some (.juint u)) :
    0 < u ∧ mo = some (.uns u) := by
  unfold stageMultipleOf at h
  rw [hf] at h
  by_cases hu : u = 0
  · simp [hu] at h
  · simp only [hu, if_false, reduceIte, Except.ok.injEq] at h
    exact ⟨by omega, h.symm⟩

theorem stageMultipleOf_double (fs : JFields) (d : Rat) (mo : Option MultOf)
    (h : stageMultipleOf fs = .ok mo)
    (hf : findField fs "multipleOf" = some (.jdouble d)) :
    ratLe d ratZero = false ∧ mo = some (.dbl d) := by
  unfold stageMultipleOf at h
  rw [hf] at h
  by_cases hd : ratLe d ratZero = true
  · simp [hd] at h
  · simp only [Bool.not_eq_true] at hd
    simp only [hd, Bool.false_eq_true, if_false, reduceIte,
      Except.ok.injEq] at h
    exact ⟨hd, h.symm⟩

theorem stageLimit_int (fs : JFields) (key : String) (i : Int)
    (mx : Option Limit) (h : stageLimit fs key = .ok mx)
    (hf : findField fs key = some (.jint i)) : mx = some (.sgn i) := by
  unfold stageLimit at h
  rw [hf] at h
  simp only [Except.ok.injEq] at h
  exact h.symm

theorem stageLimit_uint (fs : JFields) (key : String) (u : Nat)
    (mx : Option Limit) (h : stageLimit fs key = .ok mx)
    (hf : findField fs key = some (.juint u)) : mx = some (.uns u) := by
  unfold stageLimit at h
  rw [hf] at h
  simp only [Except.ok.injEq] at h
  exact h.symm

theorem stageLimit_double (fs : JFields) (key : String) (d : Rat)
    (mx : Option Limit) (h : stageLimit fs key = .ok mx)
    (hf : findField fs key = some (.jdouble d)) : mx = some (.dbl d) := by
  unfold stageLimit at h
  rw [hf] at h
  simp only [Except.ok.injEq] at h
  exact h.symm

/-! ## Single scalar events against leaf nodes: the `multipleOf`, `format`
and `type` pipelines -/

theorem multOfNode_core (d : Rat) :
    (multOfNode d).core = { multipleOf := some (.dbl d) } := rfl

theorem buildNode_multOfDoc (d : Rat) (hd : ratLt ratZero d = true) :
    buildNode (multOfDoc d) = .ok (multOfNode d) := by
  have hle : ratLe d ratZero = false := by
    simp only [ratLt] at hd
    simp [ratLe, hd]
  have h5 : stageMultipleOf (.cons "multipleOf" (.jdouble d) .nil) =
      .ok (some (.dbl d)) := by
    unfold stageMultipleOf
    simp [findField, hle]
  have hscal : scalarStages (.cons "multipleOf" (.jdouble d) .nil) =
      .ok { multipleOf := some (.dbl d) } := by
    unfold scalarStages
    rw [h5]
    rfl
  show buildNode (.jobj (.cons "multipleOf" (.jdouble d) .nil)) = _
  unfold buildNode
  rw [hscal]
  rfl

theorem validateValue_multOf (d v : Rat) :
    validateValue (multOfNode d) (.jdouble v) = is_multiple_of v d := by
  have hev : toEvents (.jdouble v) = [.enumD v] := rfl
  rw [validateValue, validateE, hev]
  show finalizeS (step (.enumD v) (mkSession (multOfNode d))) = _
  have hmk : mkSession (multOfNode d) =
      .mk (multOfNode d) [] [] true .nil .nil .nil .onone := rfl
  rw [hmk]
  have hty : ∀ t, typeOk (multOfNode d) [] t = true := fun t =>
    typeOk_noType (multOfNode d) rfl [] t
  simp [step, hty, stepBreakAll, stepNotC, Sessions.isNilS, multOfNode_core,
    checkNumberD, checkMultipleOfD, checkMaximumD, checkMinimumD]
  rw [finalizeS_oneOf_shape]
  simp [Sessions.isNilS]

theorem is_multiple_of_formula (v d : Rat) :
    is_multiple_of v d =
      (ratLt (ratAbs (fmodQ v d)) machineEps ||
        ratLt (ratAbs (ratSub (fmodQ v d) d)) machineEps) := by
  unfold is_multiple_of
  by_cases h1 : ratLt (ratAbs (fmodQ v d)) machineEps = true
  · simp [h1]
  · simp only [Bool.not_eq_true] at h1
    simp [h1]

theorem emailNode_core : emailNode.core = { fmt := .email } := rfl

theorem buildNode_emailDoc : buildNode emailDoc = .ok emailNode := rfl

theorem validateValue_email (s : String) :
    validateValue emailNode (.jstr s) =
      (!(s.length > 255) && (parseEmail s).returned) := by
  have hev : toEvents (.jstr s) = [.estr s] := rfl
  rw [validateValue, validateE, hev]
  show finalizeS (step (.estr s) (mkSession emailNode)) = _
  have hmk : mkSession emailNode =
      .mk emailNode [] [] true .nil .nil .nil .onone := rfl
  rw [hmk]
  have hty : ∀ t, typeOk emailNode [] t = true := fun t =>
    typeOk_noType emailNode rfl [] t
  simp [step, hty, stepBreakAll, stepNotC, Sessions.isNilS, emailNode_core,
    checkString]
  rw [finalizeS_oneOf_shape]
  simp [Sessions.isNilS]

theorem typeNode_core (tf : TypeFlags) :
    (typeNode tf).core = { hasType := true, types := tf } := rfl

theorem overlaps_numFlag (tf : TypeFlags) :
    tf.overlaps numFlag = tf.tNum := by
  simp [TypeFlags.overlaps, numFlag]

theorem overlaps_intNumFlag (tf : TypeFlags) :
    tf.overlaps intNumFlag = (tf.tInt || tf.tNum) := by
  simp [TypeFlags.overlaps, intNumFlag]

theorem typeOk_typeNode (tf : TypeFlags) (t : TypeFlags) :
    typeOk (typeNode tf) [] t = tf.overlaps t := by
  simp [typeOk, typeNode_core]

theorem validateValue_typeNode_double (tf : TypeFlags) (q : Rat)
    (hq : tf.tNum = false) :
    validateValue (typeNode tf) (.jdouble q) = false := by
  have hev : toEvents (.jdouble q) = [.enumD q] := rfl
  rw [validateValue, validateE, hev]
  show finalizeS (step (.enumD q) (mkSession (typeNode tf))) = _
  have hmk : mkSession (typeNode tf) =
      .mk (typeNode tf) [] [] true .nil .nil .nil .onone := rfl
  rw [hmk]
  have hty : typeOk (typeNode tf) [] numFlag = false := by
    rw [typeOk_typeNode, overlaps_numFlag, hq]
  simp [step, hty, stepBreakAll, stepNotC, Sessions.isNilS]
  rw [finalizeS_oneOf_shape]
  simp [Sessions.isNilS]

theorem validateValue_typeNode_int (tf : TypeFlags) (i : Int)
    (hq : tf.tInt = true ∨ tf.tNum = true) :
    validateValue (typeNode tf) (.jint i) = true := by
  have hev : toEvents (.jint i) = [.enumI i] := rfl
  rw [validateValue, validateE, hev]
  show finalizeS (step (.enumI i) (mkSession (typeNode tf))) = _
  have hmk : mkSession (typeNode tf) =
      .mk (typeNode tf) [] [] true .nil .nil .nil .onone := rfl
  rw [hmk]
  have hty : typeOk (typeNode tf) [] intNumFlag = true := by
    rw [typeOk_typeNode, overlaps_intNumFlag]
    cases hq with
    | inl h => simp [h]
    | inr h => simp [h]
  simp [step, hty, stepBreakAll, stepNotC, Sessions.isNilS, typeNode_core,
    checkNumberI, checkMultipleOfI, checkMaximumI, checkMinimumI]
  rw [finalizeS_oneOf_shape]
  simp [Sessions.isNilS]

theorem validateValue_typeNode_uint (tf : TypeFlags) (u : Nat)
    (hq : tf.tInt = true ∨ tf.tNum = true) :
    validateValue (typeNode tf) (.juint u) = true := by
  have hev : toEvents (.juint u) = [.enumU u] := rfl
  rw [validateValue, validateE, hev]
  show finalizeS (step (.enumU u) (mkSession (typeNode tf))) = _
  have hmk : mkSession (typeNode tf) =
      .mk (typeNode tf) [] [] true .nil .nil .nil .onone := rfl
  rw [hmk]
  have hty : typeOk (typeNode tf) [] intNumFlag = true := by
    rw [typeOk_typeNode, overlaps_intNumFlag]
    cases hq with
    | inl h => simp [h]
    | inr h => simp [h]
  simp [step, hty, stepBreakAll, stepNotC, Sessions.isNilS, typeNode_core,
    checkNumberU, checkMultipleOfU, checkMaximumU, checkMinimumU]
  rw [finalizeS_oneOf_shape]
  simp [Sessions.isNilS]

/-! ## The duplicate-key tracking of `schema_consumer::key` -/

theorem key_dup_helper (x : Bool) :
    (x && !(x && (1 == 1) && true && true)) = false := by
  cases x <;> simp

theorem key_rec_helper (x c : Bool) (ks : List String) (k : String)
    (h : (x && !(x && (1 == 1) && true && c)) = true) :
    (if x && (1 == 1) && true && !c then k :: ks else ks).contains k
      = true := by
  cases x with
  | false => simp at h
  | true =>
    cases c with
    | true => simp at h
    | false => simp [List.contains_cons]

theorem step_key_duplicate (s : Session) (k : String)
    (hc : s.count.length = 1) (ht : s.node.tracksKeys = true)
    (hk : s.keys.contains k = true) :
    (step (.ekey k) s).m_match = false := by
  cases s with
  | mk nd ks ct mt ao ay oo nc =>
    simp only [Session.count] at hc
    simp only [Session.node] at ht
    simp only [Session.keys] at hk
    simp only [step, Session.m_match]
    rw [hc, ht, hk]
    exact key_dup_helper _

theorem step_key_records (s : Session) (k : String)
    (hc : s.count.length = 1) (ht : s.node.tracksKeys = true)
    (halive : (step (.ekey k) s).m_match = true) :
    (step (.ekey k) s).keys.contains k = true := by
  cases s with
  | mk nd ks ct mt ao ay oo nc =>
    simp only [Session.count] at hc
    simp only [Session.node] at ht
    simp only [step, Session.m_match] at halive
    simp only [step, Session.keys]
    rw [hc, ht] at halive ⊢
    by_cases hk : ks.contains k = true
    · rw [hk] at halive
      exact absurd halive (by rw [key_dup_helper]; simp)
    · simp only [Bool.not_eq_true] at hk
      rw [hk] at halive ⊢
      exact key_rec_helper _ false ks k halive

theorem step_key_untracked (s : Session) (k : String)
    (ht : s.node.tracksKeys = false) :
    (step (.ekey k) s).keys = s.keys := by
  cases s with
  | mk nd ks ct mt ao ay oo nc =>
    simp only [Session.node] at ht
    simp [step, ht, Session.keys]

theorem step_key_inert (s : Session) (k : String)
    (ht : s.node.tracksKeys = false) (hao : s.allOf = .nil)
    (hay : s.anyOf = .nil) (hoo : s.oneOf = .nil) (hnc : s.notC = .onone) :
    (step (.ekey k) s).m_match = s.m_match := by
  cases s with
  | mk nd ks ct mt ao ay oo nc =>
    simp only [Session.node] at ht
    simp only [Session.allOf] at hao
    simp only [Session.anyOf] at hay
    simp only [Session.oneOf] at hoo
    simp only [Session.notC] at hnc
    subst hao hay hoo hnc
    cases mt <;>
      simp [step, ht, Session.m_match, stepBreakAll, stepNotC,
        Sessions.isNilS]

/-! ## The claims -/

/-- C1: for a root schema declaring `oneOf` with branches `B1..Bn` (the
builder requires at least one branch) and every streamed value `V`,
validation returns true iff exactly one branch matches `V`: during streaming
`validate_one_of` erases a branch as soon as its match flag fails, and at
`finalize` the session succeeds iff exactly one branch remains and finalizes
true. -/
theorem oneOf_exactly_one (bs : Nodes) (v : JValue) (h : bs ≠ .nil) :
    validateValue (oneOfNode bs) v = true ↔
      bs.toList.countP (fun b => validateValue b v) = 1 := by
  rw [validateValue, validateE_oneOf bs (toEvents v) h]
  simp [validateValue]

/-- Witness for C1 at the spec's example: the schema
`{"oneOf":[{"type":"string"},{"type":"number"}]}` accepts `"x"`. -/
theorem oneOf_exactly_one_witness :
    validateValue (oneOfNode (.cons (typeNode strFlag)
      (.cons (typeNode numFlag) .nil))) (.jstr "x") = true :=
  (oneOf_exactly_one (.cons (typeNode strFlag)
    (.cons (typeNode numFlag) .nil)) (.jstr "x")
    (fun h => Nodes.noConfusion h)).mpr (by decide)

/-- C2: for every schema `S` and value `V`, `{"not": S}` validates to the
negation of validating `V` against `S`: the branch failing early during
streaming only discards the branch (`m_not.reset()`), and at `finalize` the
parent succeeds iff the branch did not finalize true. -/
theorem not_negates (b : Node) (v : JValue) :
    validateValue (notNode b) v = !validateValue b v :=
  validateE_not b (toEvents v)

/-- C3: in every session of the session tree the match flag is monotonic: a
fresh consumer starts with it true, no event and no `finalize` ever turns it
back to true once it is false (for any operator; the `not` inversion at
finalize affects only the parent's verdict, never revives a flag). -/
theorem match_flag_monotone :
    (∀ n : Node, (mkSession n).m_match = true) ∧
    (∀ (e : Event) (s : Session), s.m_match = false →
      (step e s).m_match = false) ∧
    (∀ (es : List Event) (s : Session), s.m_match = false →
      (runE es s).m_match = false) ∧
    (∀ s : Session, s.m_match = false → finalizeS s = false) :=
  ⟨mkSession_m_match, step_m_match_mono, runE_m_match_mono, finalizeS_dead⟩

/-- Witness for C3 at a concrete failed session. -/
theorem match_flag_monotone_witness :
    (mkSession (typeNode strFlag)).m_match = true ∧
    (step .enull (.mk (typeNode strFlag) [] [] false .nil .nil .nil
      .onone)).m_match = false ∧
    finalizeS (.mk (typeNode strFlag) [] [] false .nil .nil .nil .onone)
      = false :=
  ⟨match_flag_monotone.1 (typeNode strFlag),
   match_flag_monotone.2.1 .enull
     (.mk (typeNode strFlag) [] [] false .nil .nil .nil .onone) rfl,
   match_flag_monotone.2.2.2
     (.mk (typeNode strFlag) [] [] false .nil .nil .nil .onone) rfl⟩

/-- C4: for a floating `multipleOf` divisor `d > 0` and a double value `v`,
the compiled node keeps the divisor as a double, and validation accepts `v`
iff `|fmod(v, d)| < eps` or `|fmod(v, d) - d| < eps` for the fixed absolute
`eps = numeric_limits<double>::epsilon()`, not scaled by the magnitude of
`v` or `d`. -/
theorem multipleOf_double_epsilon (d v : Rat)
    (hd : ratLt ratZero d = true) :
    buildNode (multOfDoc d) = .ok (multOfNode d) ∧
    validateValue (multOfNode d) (.jdouble v) =
      (ratLt (ratAbs (fmodQ v d)) machineEps ||
        ratLt (ratAbs (ratSub (fmodQ v d) d)) machineEps) :=
  ⟨buildNode_multOfDoc d hd,
   by rw [validateValue_multOf, is_multiple_of_formula]⟩

/-- Witness for C4 at `d = 3/2`, `v = 3`. -/
theorem multipleOf_double_epsilon_witness :
    buildNode (multOfDoc (mkRat 3 2)) = .ok (multOfNode (mkRat 3 2)) ∧
    validateValue (multOfNode (mkRat 3 2)) (.jdouble (mkRat 3 1)) =
      (ratLt (ratAbs (fmodQ (mkRat 3 1) (mkRat 3 2))) machineEps ||
        ratLt (ratAbs (ratSub (fmodQ (mkRat 3 1) (mkRat 3 2)) (mkRat 3 2)))
          machineEps) :=
  multipleOf_double_epsilon (mkRat 3 2) (mkRat 3 1) (by decide)

/-- C5 counterexample: compiling `{"multipleOf": 2}` with a SIGNED schema
value stores the divisor with the UNSIGNED representation
(`HAS_MULTIPLE_OF_UNSIGNED`, `m_multiple_of.u`), so the signed
representation of the schema value is not preserved. -/
theorem multipleOf_repr_counterexample :
    builtCore (.jobj (.cons "multipleOf" (.jint 2) .nil)) =
      some { multipleOf := some (.uns 2) } ∧
    jNumKind (.jint 2) = some .sgnK ∧
    (MultOf.uns 2).kind ≠ NumKind.sgnK :=
  ⟨by rfl, rfl, by decide⟩

/-- C5 (amended): `maximum` and `minimum` preserve all three numeric
representations of the schema value; `multipleOf` preserves the unsigned and
floating representations, while a (strictly positive) signed divisor is
stored as unsigned. -/
theorem numeric_repr_preservation (fs : JFields) (n : Node)
    (h : buildNode (.jobj fs) = .ok n) :
    (∀ i, findField fs "maximum" = some (.jint i) →
      n.core.maximum = some (.sgn i)) ∧
    (∀ u, findField fs "maximum" = some (.juint u) →
      n.core.maximum = some (.uns u)) ∧
    (∀ d, findField fs "maximum" = some (.jdouble d) →
      n.core.maximum = some (.dbl d)) ∧
    (∀ i, findField fs "minimum" = some (.jint i) →
      n.core.minimum = some (.sgn i)) ∧
    (∀ u, findField fs "minimum" = some (.juint u) →
      n.core.minimum = some (.uns u)) ∧
    (∀ d, findField fs "minimum" = some (.jdouble d) →
      n.core.minimum = some (.dbl d)) ∧
    (∀ u, findField fs "multipleOf" = some (.juint u) →
      n.core.multipleOf = some (.uns u)) ∧
    (∀ d, findField fs "multipleOf" = some (.jdouble d) →
      n.core.multipleOf = some (.dbl d)) ∧
    (∀ i, findField fs "multipleOf" = some (.jint i) →
      0 < i ∧ n.core.multipleOf = some (.uns i.toNat)) := by
  have hs := buildNode_obj_ok fs n h
  obtain ⟨hmo, hmx, hmn⟩ := scalarStages_ok_fields fs n.core hs
  exact ⟨fun i hf => stageLimit_int fs _ i _ hmx hf,
    fun u hf => stageLimit_uint fs _ u _ hmx hf,
    fun d hf => stageLimit_double fs _ d _ hmx hf,
    fun i hf => stageLimit_int fs _ i _ hmn hf,
    fun u hf => stageLimit_uint fs _ u _ hmn hf,
    fun d hf => stageLimit_double fs _ d _ hmn hf,
    fun u hf => (stageMultipleOf_uint fs u _ hmo hf).2,
    fun d hf => (stageMultipleOf_double fs d _ hmo hf).2,
    fun i hf => stageMultipleOf_int fs i _ hmo hf⟩

/-- Witness for the amended C5 at a document carrying a signed maximum, an
unsigned minimum and a floating multipleOf. -/
theorem numeric_repr_preservation_witness :
    mixedNumNode.core.maximum = some (.sgn (-3)) ∧
    mixedNumNode.core.minimum = some (.uns 5) ∧
    mixedNumNode.core.multipleOf = some (.dbl (mkRat 3 2)) := by
  have h := numeric_repr_preservation mixedNumDoc mixedNumNode (by rfl)
  exact ⟨h.1 (-3) rfl, h.2.2.2.2.1 5 rfl, h.2.2.2.2.2.2.2.1 (mkRat 3 2) rfl⟩

/-- C6: a schema document containing `exclusiveMaximum` (respectively
`exclusiveMinimum`) fails graph construction unless the value is boolean and
the paired `maximum` (respectively `minimum`) is present in the same
sub-schema; on failure no node is produced. -/
theorem exclusive_requires_bound :
    (∀ (fs : JFields) (v : JValue),
      findField fs "exclusiveMaximum" = some v →
      v.isBool = false ∨ findField fs "maximum" = none →
      isErr (buildNode (.jobj fs)) = true) ∧
    (∀ (fs : JFields) (v : JValue),
      findField fs "exclusiveMinimum" = some v →
      v.isBool = false ∨ findField fs "minimum" = none →
      isErr (buildNode (.jobj fs)) = true) :=
  ⟨fun fs v hf hb => buildNode_err_of_scalar fs
      (scalarStages_err_of_exclusive_max fs v hf hb),
   fun fs v hf hb => buildNode_err_of_scalar fs
      (scalarStages_err_of_exclusive_min fs v hf hb)⟩

/-- Witness for C6: `{"exclusiveMaximum": true}` without `maximum`, and
`{"exclusiveMinimum": 3}` with a non-boolean value, both fail the build. -/
theorem exclusive_requires_bound_witness :
    isErr (buildNode (.jobj (.cons "exclusiveMaximum" (.jbool true) .nil)))
      = true ∧
    isErr (buildNode (.jobj (.cons "exclusiveMinimum" (.jint 3) .nil)))
      = true :=
  ⟨exclusive_requires_bound.1 (.cons "exclusiveMaximum" (.jbool true) .nil)
      (.jbool true) rfl (Or.inr rfl),
   exclusive_requires_bound.2 (.cons "exclusiveMinimum" (.jint 3) .nil)
      (.jint 3) rfl (Or.inl rfl)⟩

/-- C7: validating the same value twice against the same schema yields the
same result both times and leaves the schema unchanged — the source takes
the container through `const shared_ptr<const schema_container>` and builds
a fresh consumer per call, which the embedding reflects by threading the
container through `schemaValidate` unchanged. -/
theorem validate_deterministic_pure (n : Node) (v : JValue) :
    (schemaValidate n v).1 = (schemaValidate (schemaValidate n v).2 v).1 ∧
    (schemaValidate n v).2 = n ∧
    (schemaValidate (schemaValidate n v).2 v).2 = n :=
  ⟨rfl, rfl, rfl⟩

set_option maxRecDepth 8000 in
/-- C8: the code diverges from the claim at the four-character input
`"a.@b"` against `{"format":"email"}`: `local_part`'s `list_must` consumes
the dot and its `must<local_part_label>` then fails at the `@`, raising
`tao::pegtl::parse_error`, which nothing on the `validate_string` path
catches — `basic_schema::validate` throws instead of returning the `false`
verdict the claim (and the documented always-a-boolean validation contract)
promises.  Where the parse does return, the claimed behaviour holds: a
256-character string is rejected by the length short-circuit before the
grammar can run (so it cannot raise), `"a@b.com"` is accepted and
`"not-an-email"` is rejected (its parse fails locally at the missing `@`,
a plain `false` return, not a raise). -/
theorem email_format_raises :
    buildNode emailDoc = .ok emailNode ∧
    parseEmail "a.@b" = .raise ∧
    stringRaises { fmt := .email } "a.@b" = true ∧
    stringRaises { fmt := .email } (String.mk (List.replicate 256 'a'))
      = false ∧
    validateValue emailNode (.jstr (String.mk (List.replicate 256 'a')))
      = false ∧
    parseEmail "a@b.com" = .ret true ∧
    validateValue emailNode (.jstr "a@b.com") = true ∧
    parseEmail "not-an-email" = .ret false ∧
    validateValue emailNode (.jstr "not-an-email") = false :=
  ⟨buildNode_emailDoc, by decide, by decide, by decide, by decide, by decide,
    by decide, by decide, by decide⟩

/-- C9: when the schema declares `required` or `dependencies`
(`HAS_DEPENDENCIES || !m_required.empty()`), a key event repeated at the
session's own depth fails the session, a first surviving key event is
recorded; when it declares neither, keys are not tracked (`m_keys` stays
untouched) and a key event alone never changes the match flag of a session
without live children. -/
theorem duplicate_key_tracking :
    (∀ (s : Session) (k : String), s.count.length = 1 →
      s.node.tracksKeys = true → s.keys.contains k = true →
      (step (.ekey k) s).m_match = false) ∧
    (∀ (s : Session) (k : String), s.count.length = 1 →
      s.node.tracksKeys = true → (step (.ekey k) s).m_match = true →
      (step (.ekey k) s).keys.contains k = true) ∧
    (∀ (s : Session) (k : String), s.node.tracksKeys = false →
      (step (.ekey k) s).keys = s.keys) ∧
    (∀ (s : Session) (k : String), s.node.tracksKeys = false →
      s.allOf = .nil → s.anyOf = .nil → s.oneOf = .nil → s.notC = .onone →
      (step (.ekey k) s).m_match = s.m_match) :=
  ⟨step_key_duplicate, step_key_records, step_key_untracked, step_key_inert⟩

/-- Witness for C9: a repeated key fails a `required` session; an untracked
session keeps `m_keys` unchanged. -/
theorem duplicate_key_tracking_witness :
    (step (.ekey "a") (.mk (.mk { required := ["a"] } .nil .nil .nil .onone)
      ["a"] [2] true .nil .nil .nil .onone)).m_match = false ∧
    (step (.ekey "b") (.mk (.mk {} .nil .nil .nil .onone)
      ["b"] [2] true .nil .nil .nil .onone)).keys = ["b"] :=
  ⟨duplicate_key_tracking.1
      (.mk (.mk { required := ["a"] } .nil .nil .nil .onone)
        ["a"] [2] true .nil .nil .nil .onone) "a" rfl rfl (by decide),
   duplicate_key_tracking.2.2.1
      (.mk (.mk {} .nil .nil .nil .onone)
        ["b"] [2] true .nil .nil .nil .onone) "b" rfl⟩

/-- C10: a `type` constraint containing `integer` but not `number` rejects
every `number(double)` event at the session's own depth (even an integral
double), while `number(int64)` and `number(uint64)` events satisfy both the
`integer` and the `number` type. -/
theorem integer_type_excludes_double (tf : TypeFlags) (q : Rat) (i : Int)
    (u : Nat) (hi : tf.tInt = true) (hn : tf.tNum = false) :
    validateValue (typeNode tf) (.jdouble q) = false ∧
    validateValue (typeNode tf) (.jint i) = true ∧
    validateValue (typeNode tf) (.juint u) = true ∧
    (∀ tf2 : TypeFlags, tf2.tNum = true →
      validateValue (typeNode tf2) (.jint i) = true ∧
      validateValue (typeNode tf2) (.juint u) = true) :=
  ⟨validateValue_typeNode_double tf q hn,
   validateValue_typeNode_int tf i (Or.inl hi),
   validateValue_typeNode_uint tf u (Or.inl hi),
   fun tf2 h2 => ⟨validateValue_typeNode_int tf2 i (Or.inr h2),
     validateValue_typeNode_uint tf2 u (Or.inr h2)⟩⟩

/-- Witness for C10: `{"type":"integer"}` rejects the double `1.0` and
accepts the integer `1`. -/
theorem integer_type_excludes_double_witness :
    validateValue (typeNode { tInt := true }) (.jdouble (mkRat 1 1))
      = false ∧
    validateValue (typeNode { tInt := true }) (.jint 1) = true :=
  ⟨(integer_type_excludes_double { tInt := true } (mkRat 1 1) 1 1
      rfl rfl).1,
   (integer_type_excludes_double { tInt := true } (mkRat 1 1) 1 1
      rfl rfl).2.1⟩

end TaoSchema
